import Mathlib

/-!
Verification development for the Houle invoice generator (src/app.py).

The program reads a table of charge rows, validates the tenant and required
columns, filters rows by numeric positive Charge Amount, groups rows by an
outer key (Header Reference 2 / Header User 2) and an inner key (Billing Ref),
computes totals, and renders a paginated PDF with a vertical cursor.

Conventions of the embedding:
- Python decimal values are modelled as rationals.
- A spreadsheet cell that may fail numeric coercion is a Cell: a number, a
  missing value (NaN), or a non-numeric string.
- pandas to_numeric with errors equal to coerce maps a string cell to NaN;
  with the default errors equal to raise it throws on a string cell, which the
  model expresses as an Except error / a crash outcome.
- Python string operations (strip, lower, replace, split, len, slicing) are
  modelled directly on the character list of the string.
- The PDF canvas is modelled as a trace of events (text draw at a page and a
  vertical position, page break, rectangle), with the vertical cursor and the
  page counter threaded through an explicit state.
-/

/-- Whitespace as used by Python str.strip and str.split. -/
def pyIsSpace (c : Char) : Bool :=
  c = ' ' ∨ c = '\t' ∨ c = '\n' ∨ c = '\r' ∨ c = '\x0b' ∨ c = '\x0c'

/-- Python str.strip: remove leading and trailing whitespace. -/
def pyStrip (s : String) : String :=
  String.mk (((s.data.dropWhile pyIsSpace).reverse.dropWhile pyIsSpace).reverse)

/-- Column-name normalization of app.py line 28:
col.strip().lower().replace(" ", ""). -/
def normalize_col (s : String) : String :=
  String.mk ((((s.data.dropWhile pyIsSpace).reverse.dropWhile pyIsSpace).reverse.map
    Char.toLower).filter (fun c => c ≠ ' '))

/-- A raw spreadsheet cell subject to numeric coercion: a number, a missing
value (NaN), or a non-numeric string. -/
inductive Cell
  | num (q : ℚ)
  | na
  | str (s : String)
deriving DecidableEq

/-- Whether pandas to_numeric with errors equal to coerce yields a non-null
number for this cell. -/
def Cell.isNum : Cell → Bool
  | .num _ => true
  | _ => false

/-- Whether the cell is a non-numeric string, on which to_numeric with the
default errors equal to raise throws. -/
def Cell.isStr : Cell → Bool
  | .str _ => true
  | _ => false

/-- The numeric value of a cell known to be numeric. -/
def Cell.toQ : Cell → ℚ
  | .num q => q
  | _ => 0

/-- One raw row of the uploaded table.  Fields record the values of the
columns that the program reads; outer is the value in the resolved
outer-grouping column and inner the value in Billing Ref, where none models
a missing (NaN) cell.  actDate carries the already formatted activity date
or none for NaT. -/
structure RawRow where
  client : String
  outer : Option String
  inner : Option String
  serviceCode : String
  description : String
  qty : Cell
  unit : String
  rate : ℚ
  amount : Cell
  actDate : Option String
deriving DecidableEq

/-- The uploaded table: its column names in file order, and its rows. -/
structure Table where
  cols : List String
  rows : List RawRow
deriving DecidableEq

/-- A cleaned charge row (a member of df_clean after app.py lines 66-69):
the amount is numeric, the quantity is a rational or NaN (none). -/
structure CleanRow where
  client : String
  outer : Option String
  inner : Option String
  serviceCode : String
  description : String
  qty : Option ℚ
  unit : String
  rate : ℚ
  amount : ℚ
  actDate : Option String
deriving DecidableEq

/-- Row survives the notnull filter of app.py line 66. -/
def keepAmt (r : RawRow) : Bool := r.amount.isNum

/-- Row survives both amount filters (numeric and strictly positive),
app.py lines 66 and 69. -/
def amtPos (r : RawRow) : Bool :=
  match r.amount with
  | .num q => 0 < q
  | _ => false

/-- Conversion of a surviving raw row into a cleaned row; the quantity cell
keeps its numeric value and a missing quantity becomes NaN (none). -/
def toCleanRow (r : RawRow) : CleanRow :=
  { client := r.client
    outer := r.outer
    inner := r.inner
    serviceCode := r.serviceCode
    description := r.description
    qty := match r.qty with | .num q => some q | _ => none
    unit := r.unit
    rate := r.rate
    amount := r.amount.toQ
    actDate := r.actDate }

/-- Result of the cleaning step: either the quantity coercion raised, or
the cleaned rows. -/
inductive CleanResult
  | err
  | ok (rs : List CleanRow)
deriving DecidableEq

/-- Cleaning of app.py lines 66-69: filter rows whose Charge Amount coerces
to a number, then coerce Charge Qty with the default errors equal to raise
(a non-numeric string quantity throws, modelled as err), then keep rows
with amount strictly positive. -/
def cleanRows (rows : List RawRow) : CleanResult :=
  let kept := rows.filter keepAmt
  if kept.any (fun r => r.qty.isStr) then .err
  else .ok ((kept.filter amtPos).map toCleanRow)

/-- Lookup in the normalized column map of app.py line 28.  The Python dict
comprehension lets a later column overwrite an earlier one with the same
normalized name, hence the last match wins. -/
def colMapLookup (cols : List String) (key : String) : Option String :=
  (cols.filter (fun c => normalize_col c = key)).getLast?

/-- Outer-grouping column resolution of app.py lines 30-38: try
headerreference2 then headeruser2 against the normalized column map;
returns the matched original column name and the display name. -/
def resolvePo (cols : List String) : Option (String × String) :=
  match colMapLookup cols "headerreference2" with
  | some c => some (c, "Header Reference 2")
  | none =>
    match colMapLookup cols "headeruser2" with
    | some c => some (c, "Header User 2")
    | none => none

/-- The validation failures that app.py reports with st.error and st.stop. -/
inductive VError
  | clientError
  | missingGroupCol (available : List String)
  | missingBillingRef
  | noValidCharges
deriving DecidableEq

/-- Outcome of the validation and cleaning pipeline: a reported validation
error, an uncaught exception (crash), or the cleaned row set. -/
inductive RunResult
  | valError (e : VError)
  | crash
  | ok (rs : List CleanRow)
deriving DecidableEq

/-- The validation and cleaning pipeline of app.py lines 22-73, in program
order: tenant check (column presence, then the Client value of the first raw
row; an empty table makes iloc raise, a crash), outer-grouping column
resolution, Billing Ref presence, cleaning, empty-set check. -/
def run (t : Table) : RunResult :=
  if "Client" ∉ t.cols then .valError .clientError
  else
    match t.rows.head? with
    | none => .crash
    | some r0 =>
      if r0.client ≠ "HE01" then .valError .clientError
      else
        match resolvePo t.cols with
        | none => .valError (.missingGroupCol t.cols)
        | some _ =>
          if "Billing Ref" ∉ t.cols then .valError .missingBillingRef
          else
            match cleanRows t.rows with
            | .err => .crash
            | .ok rs => if rs.isEmpty then .valError .noValidCharges else .ok rs

/-- Tenant check failure condition: Client column absent, or the first raw
row's Client value differs from the accepted tenant code (an empty table
is not a tenant failure: the check itself raises there). -/
def tenantFail (t : Table) : Bool :=
  if "Client" ∉ t.cols then true
  else
    match t.rows.head? with
    | none => false
    | some r0 => r0.client ≠ "HE01"

/-- Neither outer-grouping alias resolves. -/
def outerMissing (t : Table) : Bool := (resolvePo t.cols).isNone

/-- The Billing Ref column is absent. -/
def billingMissing (t : Table) : Bool := "Billing Ref" ∉ t.cols

/-- Some row kept by the notnull amount filter has a non-numeric string
Charge Qty, on which the quantity coercion raises. -/
def qtyStrCond (t : Table) : Bool :=
  (t.rows.filter keepAmt).any (fun r => r.qty.isStr)

/-- The cleaned row set would be empty: no row has a numeric positive
Charge Amount. -/
def cleanedEmpty (t : Table) : Bool :=
  (t.rows.filter amtPos).isEmpty

/-- Grouping-key normalization of app.py lines 80-81: a missing (NaN) key
becomes the sentinel UNSPECIFIED, a present key is stripped of surrounding
whitespace. -/
def norm_key : Option String → String
  | none => "UNSPECIFIED"
  | some s => pyStrip s

/-- A projected line item as appended in app.py lines 87-95. -/
structure Item where
  serviceCode : String
  description : String
  qty : Option ℚ
  unit : String
  rate : ℚ
  amount : ℚ
  date : String
deriving DecidableEq

/-- Projection of a cleaned row to its line-item fields (app.py lines
87-95); a missing activity date displays as N/A. -/
def to_item (r : CleanRow) : Item :=
  { serviceCode := r.serviceCode
    description := r.description
    qty := r.qty
    unit := r.unit
    rate := r.rate
    amount := r.amount
    date := r.actDate.getD "N/A" }

/-- The insertion-ordered two-level grouping po -> doc -> items of app.py
lines 78-95, as association lists preserving first-seen key order. -/
abbrev Docs := List (String × List Item)

abbrev Groups := List (String × Docs)

/-- Append an item under an inner (document) key: an existing key keeps its
position and gains the item at the end of its list, a new key is appended. -/
def insertDoc (docs : Docs) (doc : String) (it : Item) : Docs :=
  match docs with
  | [] => [(doc, [it])]
  | (d, its) :: rest =>
    if d = doc then (d, its ++ [it]) :: rest
    else (d, its) :: insertDoc rest doc it

/-- Append an item under an outer key and an inner key. -/
def insertPo (gs : Groups) (po doc : String) (it : Item) : Groups :=
  match gs with
  | [] => [(po, [(doc, [it])])]
  | (p, docs) :: rest =>
    if p = po then (p, insertDoc docs doc it) :: rest
    else (p, docs) :: insertPo rest po doc it

/-- The grouping loop of app.py lines 78-95 over the cleaned rows. -/
def po_groups (rs : List CleanRow) : Groups :=
  rs.foldl (fun gs r => insertPo gs (norm_key r.outer) (norm_key r.inner) (to_item r)) []

/-- Sum of the item amounts of one document, app.py line 288. -/
def doc_total (its : List Item) : ℚ := (its.map (fun it => it.amount)).sum

/-- Sum of the document totals of one outer group, app.py line 300. -/
def po_total (docs : Docs) : ℚ := (docs.map (fun d => doc_total d.2)).sum

/-- Sum of the outer-group totals over the whole grouping. -/
def groupsTotal (gs : Groups) : ℚ := (gs.map (fun g => po_total g.2)).sum

/-- The grand subtotal of app.py line 98: sum of Charge Amount over the
cleaned rows. -/
def grand_subtotal (rs : List CleanRow) : ℚ := (rs.map (fun r => r.amount)).sum

/-- The GST rate of app.py line 99 (0.05). -/
def gst_rate : ℚ := 5 / 100

/-- The GST amount of app.py line 100. -/
def gst_amount (rs : List CleanRow) : ℚ := grand_subtotal rs * gst_rate

/-- The total due of app.py line 101. -/
def total_due (rs : List CleanRow) : ℚ := grand_subtotal rs + gst_amount rs

/-- Service rollup key: (Service Code, Description, Unit). -/
abbrev SKey := String × String × String

/-- Float addition with NaN propagation: adding a NaN quantity poisons the
running sum. -/
def nanAdd : Option ℚ → Option ℚ → Option ℚ
  | some a, some b => some (a + b)
  | _, _ => none

/-- One accumulation step of a service rollup (app.py lines 158-164 and
187-193): the entry for the key starts at quantity 0 and amount 0 and is
increased by the row quantity (NaN-propagating) and amount; first-seen key
order is preserved. -/
def rollupAdd (m : List (SKey × (Option ℚ × ℚ))) (k : SKey) (q : Option ℚ) (a : ℚ) :
    List (SKey × (Option ℚ × ℚ)) :=
  match m with
  | [] => [(k, (nanAdd (some 0) q, 0 + a))]
  | (k', v) :: rest =>
    if k' = k then (k', (nanAdd v.1 q, v.2 + a)) :: rest
    else (k', v) :: rollupAdd rest k q a

/-- The global service rollup of app.py lines 158-164 over the cleaned rows. -/
def global_service (rs : List CleanRow) : List (SKey × (Option ℚ × ℚ)) :=
  rs.foldl (fun m r => rollupAdd m (r.serviceCode, r.description, r.unit) r.qty r.amount) []

/-- All line items of one outer group in document order (all_lines of
app.py line 188). -/
def allDocItems (docs : Docs) : List Item := (docs.map (fun d => d.2)).flatten

/-- The per-outer-group service rollup of app.py lines 187-193. -/
def po_service (docs : Docs) : List (SKey × (Option ℚ × ℚ)) :=
  (allDocItems docs).foldl
    (fun m it => rollupAdd m (it.serviceCode, it.description, it.unit) it.qty it.amount) []

/-- Lookup of a rollup entry by its key. -/
def rollupLookup (m : List (SKey × (Option ℚ × ℚ))) (k : SKey) : Option (Option ℚ × ℚ) :=
  (m.find? (fun e => e.1 = k)).map (fun e => e.2)

/-- Lookup of the documents of an outer key in the grouping. -/
def findDocs (gs : Groups) (po : String) : Option Docs :=
  (gs.find? (fun g => g.1 = po)).map (fun g => g.2)

/-- Lookup of the items of an inner key among the documents. -/
def findItems (docs : Docs) (doc : String) : Option (List Item) :=
  (docs.find? (fun d => d.1 = doc)).map (fun d => d.2)

/-- All items of the whole grouping, in group order. -/
def allItems (gs : Groups) : List Item := (gs.map (fun g => allDocItems g.2)).flatten

/-- Python str.split with no argument: split on whitespace runs, no empty
words. -/
def pySplit (s : String) : List String :=
  ((s.data.splitOnP pyIsSpace).map String.mk).filter (fun w => w ≠ "")

/-- One step of the word loop of wrap_text (app.py lines 243-251): append
the word to the current line when it fits with a separating space, else
commit the current line and start a new one with the word. -/
def wrapStep (maxChars : Nat) (acc : List String × String) (w : String) :
    List String × String :=
  let lines := acc.1
  let cur := acc.2
  if cur.length + w.length + 1 ≤ maxChars then
    (lines, if cur = "" then w else cur ++ " " ++ w)
  else (lines ++ [cur], w)

/-- The forced character split of app.py line 257:
text sliced into pieces of maxChars characters. -/
def hardSplit (text : String) (maxChars : Nat) : List String :=
  (List.range ((text.length + maxChars - 1) / maxChars)).map
    (fun i => String.mk ((text.data.drop (i * maxChars)).take maxChars))

/-- wrap_text of app.py lines 234-259: a string within the budget is
returned unchanged as one line; otherwise the words are packed greedily;
the single-long-word rescue only fires when the packed result is one line
longer than the budget. -/
def wrap_text (text : String) (maxChars : Nat) : List String :=
  if text.length ≤ maxChars then [text]
  else
    let p := (pySplit text).foldl (wrapStep maxChars) ([], "")
    let lines := if p.2 ≠ "" then p.1 ++ [p.2] else p.1
    match lines with
    | [l] => if maxChars < l.length then hardSplit text maxChars else lines
    | _ => lines

/-- Kinds of drawn text, for identifying blocks in the event trace. -/
inductive Tag
  | companyInfo
  | invHeader
  | billTo
  | warehouse
  | summaryTitle
  | summaryLine
  | pageHeader
  | poSummaryTitle
  | poSummaryLine
  | docLabel
  | tableHeader
  | rowMain
  | rowDesc
  | docMeta
  | docSubtotal
  | poTotal
  | totalsLine
  | footer
deriving DecidableEq

/-- One canvas event: a text draw on a page at a vertical position, a page
break to a new page number, or the document box rectangle with its bottom
edge position. -/
inductive Ev
  | text (page : Nat) (y : Int) (tag : Tag)
  | newPage (page : Nat)
  | rect (page : Nat) (yBottom : Int)
deriving DecidableEq

/-- Layout state of create_pdf: current page number, vertical cursor,
emitted events, the cursor value at the end of each document's line-item
loop (lows), and the number of line-item rows dropped by the truncation
break of app.py line 281. -/
structure St where
  page : Nat
  y : Int
  evs : List Ev
  lows : List Int
  dropped : Nat
deriving DecidableEq

/-- Draw a text at the given vertical position on the current page. -/
def emit (s : St) (tag : Tag) (yAt : Int) : St :=
  ⟨s.page, s.y, s.evs ++ [.text s.page yAt tag], s.lows, s.dropped⟩

/-- Lower the cursor by d points. -/
def dropY (s : St) (d : Int) : St := ⟨s.page, s.y - d, s.evs, s.lows, s.dropped⟩

/-- Page break inside the global service summary and the per-group service
summary loops (app.py lines 170-173 and 201-204): below 150 the engine
starts a new page and resets the cursor to the top margin, with no header
re-emission. -/
def summaryBreak (s : St) : St :=
  if s.y < 150 then ⟨s.page + 1, 742, s.evs ++ [.newPage (s.page + 1)], s.lows, s.dropped⟩
  else s

/-- Page break at the head of an outer-group block (app.py lines 178-184):
below 150 the engine starts a new page, re-emits the two running header
lines at the top margin, and continues 80 points lower. -/
def poBreak (s : St) : St :=
  if s.y < 150 then
    ⟨s.page + 1, 742 - 80,
      s.evs ++ [.newPage (s.page + 1), .text (s.page + 1) 742 .pageHeader,
        .text (s.page + 1) 742 .pageHeader],
      s.lows, s.dropped⟩
  else s

/-- Page break before a document box (app.py lines 209-215): below 200 the
engine starts a new page, re-emits the two running header lines, and
continues 80 points lower. -/
def docBreak (s : St) : St :=
  if s.y < 200 then
    ⟨s.page + 1, 742 - 80,
      s.evs ++ [.newPage (s.page + 1), .text (s.page + 1) 742 .pageHeader,
        .text (s.page + 1) 742 .pageHeader],
      s.lows, s.dropped⟩
  else s

/-- Page break before the grand totals (app.py lines 306-309): below 150
the engine starts a new page and resets the cursor to 100 points below the
top edge, with no header re-emission. -/
def totalsBreak (s : St) : St :=
  if s.y < 150 then ⟨s.page + 1, 792 - 100, s.evs ++ [.newPage (s.page + 1)], s.lows, s.dropped⟩
  else s

/-- One line of the global service summary (app.py lines 166-173): draw at
the cursor, move down 13 plus 14 points, then the summary page-break check. -/
def sumLine (s : St) : St := summaryBreak (dropY (emit s .summaryLine s.y) 27)

/-- One line of the per-group service summary (app.py lines 197-204): draw,
move down 13 plus 12 points, then the summary page-break check. -/
def poLine (s : St) : St := summaryBreak (dropY (emit s .poSummaryLine s.y) 25)

/-- One line-item row (app.py lines 262-279): the non-description fields
are drawn once at the cursor, each wrapped description sub-line 12 points
lower than the previous, and the cursor moves down by 12 points per
sub-line. -/
def rowDraw (s : St) (it : Item) : St :=
  let n := (wrap_text it.description 35).length
  ⟨s.page, s.y - 12 * n,
    s.evs ++ (.text s.page s.y .rowMain ::
      (List.range n).map (fun i => .text s.page (s.y - 12 * i) .rowDesc)),
    s.lows, s.dropped⟩

/-- The line-item loop of app.py lines 262-281: rows are drawn in order;
when the cursor falls below 100 after a row, the loop stops and the
remaining rows are dropped (counted in dropped), with no page break. -/
def rowLoop (s : St) : List Item → St
  | [] => s
  | it :: rest =>
    let s1 := rowDraw s it
    if s1.y < 100 then ⟨s1.page, s1.y, s1.evs, s1.lows, s1.dropped + rest.length⟩
    else rowLoop s1 rest

/-- The opening of a document box (app.py lines 208-230): page-break check
at 200, the document label (13 plus 8 points), and the bold table header
(12 points). -/
def docHead (s : St) : St :=
  let s1 := docBreak s
  let s2 := dropY (emit s1 .docLabel s1.y) 21
  dropY (emit s2 .tableHeader s2.y) 12

/-- The close of a document box (app.py lines 283-298): record the cursor
reached by the line-item loop, then the metadata line, the document
subtotal, and the box rectangle whose bottom edge is 10 points below the
final cursor. -/
def docTail (s : St) : St :=
  let s5 : St := ⟨s.page, s.y, s.evs, s.lows ++ [s.y], s.dropped⟩
  let s6 := dropY s5 5
  let s7 := dropY (emit s6 .docMeta s6.y) 15
  let s8 := dropY (emit s7 .docSubtotal s7.y) 25
  ⟨s8.page, s8.y, s8.evs ++ [.rect s8.page (s8.y - 10)], s8.lows, s8.dropped⟩

/-- One document box (app.py lines 208-298): its opening, the line-item
loop, and its close. -/
def renderDoc (s : St) (its : List Item) : St := docTail (rowLoop (docHead s) its)

/-- The opening of an outer-group block (app.py lines 177-205): page-break
check at 150 with header re-emission, the group summary title, the group
service-summary lines, and a 10-point gap. -/
def poHead (s : St) (docs : Docs) : St :=
  let s1 := poBreak s
  let s2 := dropY (emit s1 .poSummaryTitle s1.y) 19
  dropY ((po_service docs).foldl (fun a _ => poLine a) s2) 10

/-- The close of an outer-group block (app.py lines 300-303): the group
total at the cursor followed by a 40-point gap. -/
def poTail (s : St) : St := dropY (emit s .poTotal s.y) 40

/-- One outer-group block (app.py lines 177-303): its opening, the
document boxes in order, and its close. -/
def renderPo (s : St) (docs : Docs) : St :=
  poTail (docs.foldl (fun a d => renderDoc a d.2) (poHead s docs))

/-- The fixed opening blocks of a render (app.py lines 113-156): optional
logo space, company info, invoice header, bill-to, warehouse, and the
global summary title, starting at the top margin of page 1. -/
def renderHeader (logoOk : Bool) : St :=
  let s : St := ⟨1, 742, [], [], 0⟩
  let s := dropY s (if logoOk then 80 else 20)
  let s := dropY (emit s .companyInfo s.y) 14
  let s := dropY (emit s .companyInfo s.y) 13
  let s := dropY (emit s .companyInfo s.y) 13
  let s := dropY s 15
  let s := emit s .invHeader (s.y + 25)
  let s := emit s .invHeader (s.y + 10)
  let s := emit s .invHeader (s.y - 5)
  let s := emit s .invHeader (s.y - 20)
  let s := dropY s 30
  let s := dropY (emit s .billTo s.y) 14
  let s := dropY (emit s .billTo s.y) 14
  let s := dropY (emit s .billTo s.y) 13
  let s := dropY (emit s .billTo s.y) 14
  let s := dropY s 20
  let s := dropY (emit s .warehouse s.y) 14
  let s := dropY (emit s .warehouse s.y) 13
  let s := dropY (emit s .warehouse s.y) 13
  let s := dropY s 30
  let s := dropY (emit s .summaryTitle s.y) 14
  dropY s 10

/-- The grand totals block and footer (app.py lines 305-319): page-break
check at 150 resetting to 692, the three totals lines at the cursor, 15
and 35 points below it, and the footer at 50 points. -/
def renderTotals (s : St) : St :=
  let s4 := totalsBreak s
  let s5 := emit s4 .totalsLine s4.y
  let s6 := emit s5 .totalsLine (s4.y - 15)
  let s7 := emit s6 .totalsLine (s4.y - 35)
  emit s7 .footer 50

/-- The whole layout pass of create_pdf (app.py lines 103-323) over the
cleaned rows: opening blocks, global service summary, outer-group blocks,
grand totals with their page-break check, and the footer at 50 points. -/
def render (rs : List CleanRow) (logoOk : Bool) : St :=
  renderTotals ((po_groups rs).foldl (fun a g => renderPo a g.2)
    (dropY ((global_service rs).foldl (fun a _ => sumLine a) (renderHeader logoOk)) 20))

/-- Whether an event respects the lower bounds of the no-overflow invariant:
text at or above 50 points, a rectangle bottom at or above 45 points. -/
def evOK : Ev → Bool
  | .text _ y _ => 50 ≤ y
  | .rect _ y => 45 ≤ y
  | .newPage _ => true

/-- Whether an event is one of the re-emitted running header lines. -/
def isHeaderEv : Ev → Bool
  | .text _ _ t => t = Tag.pageHeader
  | _ => false

/-- Shorthand constructor for a raw row. -/
def mkRow (cl : String) (o i : Option String) (code desc : String) (q : Cell)
    (u : String) (rt : ℚ) (a : Cell) (d : Option String) : RawRow :=
  ⟨cl, o, i, code, desc, q, u, rt, a, d⟩

/-- A well-formed header row set for the fixtures below. -/
def stdCols : List String := ["Client", "Header Reference 2", "Billing Ref"]

/-- Fixture for the end-to-end totals scenario: two rows under outer key
PO1, inner keys DOC1 (amount 100) and DOC2 (amount 50). -/
def tC3 : Table :=
  ⟨stdCols,
   [mkRow "HE01" (some "PO1") (some "DOC1") "SVC1" "Handling" (.num 1) "EA" 100
      (.num 100) (some "01/02/2025"),
    mkRow "HE01" (some "PO1") (some "DOC2") "SVC2" "Storage" (.num 1) "EA" 50
      (.num 50) (some "01/03/2025")]⟩

/-- The cleaned rows of the totals fixture. -/
def rsC3 : List CleanRow := (tC3.rows.filter amtPos).map toCleanRow

/-- Fixture whose cleaned set would be empty, but whose only kept row has a
non-numeric string Charge Qty: the quantity coercion raises before the
empty-set diagnostic. -/
def tC4 : Table :=
  ⟨stdCols, [mkRow "HE01" (some "P") (some "D") "S" "d" (.str "x") "EA" 1
    (.num (-1)) none]⟩

/-- Fixture whose first raw row passes the tenant check while a later
cleaned row carries a different Client value. -/
def tC5 : Table :=
  ⟨stdCols,
   [mkRow "HE01" (some "P") (some "D") "S" "d" (.num 1) "EA" 1 (.num 1) none,
    mkRow "XX01" (some "P") (some "D") "S" "d" (.num 1) "EA" 5 (.num 5) none]⟩

/-- The cleaned rows of the tenant fixture. -/
def rsC5 : List CleanRow := (tC5.rows.filter amtPos).map toCleanRow

/-- Fixture whose only outer-grouping column is named Header ref. -/
def tC6 : Table :=
  ⟨["Client", "Header ref", "Billing Ref"],
   [mkRow "HE01" (some "P") (some "D") "S" "d" (.num 1) "EA" 1 (.num 1) none]⟩

/-- A 36-character string with no whitespace. -/
def s36 : String := String.mk (List.replicate 36 'x')

/-- An 18-character word. -/
def w18 : String := String.mk (List.replicate 18 'a')

/-- A description of 25 words of 18 characters each: wrap_text splits it
into 25 sub-lines. -/
def desc25 : String := String.intercalate " " (List.replicate 25 w18)

/-- Cleaned rows whose second line item has a 25-line wrapped description:
the document's line-item loop drives the cursor far below the page with no
row truncated. -/
def rsC8 : List CleanRow :=
  [⟨"HE01", some "PO1", some "D1", "A", "x", some 1, "EA", 1, 1, none⟩,
   ⟨"HE01", some "PO1", some "D1", "B", desc25, some 1, "EA", 1, 1, none⟩]

/-- A raw row with a numeric positive amount and a non-numeric string
quantity. -/
def rowC10s : RawRow := mkRow "HE01" (some "P") (some "D") "S" "d" (.str "abc") "EA" 1 (.num 5) none

/-- Fixture containing only rowC10s. -/
def tC10 : Table := ⟨stdCols, [rowC10s]⟩

/-- Raw rows with a missing (NaN) Charge Qty on a kept row. -/
def rowsC10 : List RawRow :=
  [mkRow "HE01" (some "P") (some "D") "S" "d" Cell.na "EA" 1 (.num 5) none]

/-- The cleaned rows of the NaN-quantity fixture. -/
def rsC10 : List CleanRow := (rowsC10.filter amtPos).map toCleanRow

/-- Raw rows exercising the grouping: a missing outer key, a padded outer
key with a missing inner key, and a dropped row with non-numeric amount. -/
def rowsC2 : List RawRow :=
  [mkRow "HE01" none (some "D1") "S1" "d1" (.num 1) "EA" 2 (.num 2) none,
   mkRow "HE01" (some " PO ") none "S2" "d2" (.num 1) "EA" 3 (.num 3) none,
   mkRow "HE01" (some "PO") (some "D2") "S3" "d3" Cell.na "EA" 4 (.str "bad") none]

/-- The cleaned rows of the grouping fixture. -/
def rsC2 : List CleanRow := (rowsC2.filter amtPos).map toCleanRow

/-- The first line item of the totals fixture. -/
def itC3a : Item := ⟨"SVC1", "Handling", some 1, "EA", 100, 100, "01/02/2025"⟩

/-- The second line item of the totals fixture. -/
def itC3b : Item := ⟨"SVC2", "Storage", some 1, "EA", 50, 50, "01/03/2025"⟩

/-- The documents of outer group PO1 in the totals fixture. -/
def docsC3 : Docs := [("DOC1", [itC3a]), ("DOC2", [itC3b])]

/-!
Theorems.  Shared lemmas first, then one theorem per claim, with
counterexamples and witnesses where required.
-/

theorem amtPos_and_keepAmt (r : RawRow) : (amtPos r && keepAmt r) = amtPos r := by
  cases h : r.amount <;> simp [keepAmt, amtPos, Cell.isNum, h]

theorem cleanRows_ok_eq (rows : List RawRow) (rs : List CleanRow)
    (h : cleanRows rows = .ok rs) : rs = (rows.filter amtPos).map toCleanRow := by
  simp only [cleanRows] at h
  split at h
  · exact absurd h (by simp)
  · rw [CleanResult.ok.injEq] at h
    rw [← h, List.filter_filter]
    congr 1
    exact List.filter_congr (fun a _ => amtPos_and_keepAmt a)

theorem doc_total_append (its : List Item) (it : Item) :
    doc_total (its ++ [it]) = doc_total its + it.amount := by
  simp [doc_total]

theorem po_total_insertDoc (docs : Docs) (doc : String) (it : Item) :
    po_total (insertDoc docs doc it) = po_total docs + it.amount := by
  induction docs with
  | nil => simp [insertDoc, po_total, doc_total]
  | cons d rest ih =>
    obtain ⟨k, its⟩ := d
    by_cases h : k = doc
    · subst h
      simp [insertDoc, po_total, doc_total_append]
      ring
    · simp only [insertDoc, if_neg h, po_total, List.map_cons, List.sum_cons] at ih ⊢
      rw [ih]
      ring

theorem groupsTotal_insertPo (gs : Groups) (po doc : String) (it : Item) :
    groupsTotal (insertPo gs po doc it) = groupsTotal gs + it.amount := by
  induction gs with
  | nil => simp [insertPo, groupsTotal, po_total, doc_total]
  | cons g rest ih =>
    obtain ⟨p, docs⟩ := g
    by_cases h : p = po
    · subst h
      simp [insertPo, groupsTotal, po_total_insertDoc]
      ring
    · simp only [insertPo, if_neg h, groupsTotal, List.map_cons, List.sum_cons] at ih ⊢
      rw [ih]
      ring

theorem groupsTotal_foldl (rs : List CleanRow) (gs : Groups) :
    groupsTotal (rs.foldl
        (fun a r => insertPo a (norm_key r.outer) (norm_key r.inner) (to_item r)) gs) =
      groupsTotal gs + grand_subtotal rs := by
  induction rs generalizing gs with
  | nil => simp [grand_subtotal]
  | cons r rest ih =>
    simp only [List.foldl_cons, ih, groupsTotal_insertPo, grand_subtotal, List.map_cons,
      List.sum_cons]
    have ha : (to_item r).amount = r.amount := rfl
    rw [ha]
    ring

/-- C1: for every cleaned row set, the grand subtotal equals the sum over
all outer groups of the outer-group total (no row double-counted or
dropped across the two-level grouping), and each outer-group total is the
sum of its documents' doc totals. -/
theorem C1_grand_subtotal_partition (rs : List CleanRow) :
    grand_subtotal rs = groupsTotal (po_groups rs) ∧
      ∀ docs : Docs, po_total docs = (docs.map (fun d => doc_total d.2)).sum := by
  refine ⟨?_, fun docs => rfl⟩
  rw [po_groups, groupsTotal_foldl]
  simp [groupsTotal]

/-- C3: the tax is five percent of the global subtotal and the total due is
their sum, computed once from the global subtotal; on the two-row PO1
scenario with amounts 100 and 50 the outer-group total is 150, the grand
subtotal 150, the tax 7.50 and the total due 157.50. -/
theorem C3_tax_and_totals (rs : List CleanRow) :
    gst_amount rs = grand_subtotal rs * (5 / 100) ∧
    total_due rs = grand_subtotal rs + gst_amount rs ∧
    run tC3 = .ok rsC3 ∧
    findDocs (po_groups rsC3) "PO1" = some docsC3 ∧
    po_total docsC3 = 150 ∧
    grand_subtotal rsC3 = 150 ∧ gst_amount rsC3 = 15 / 2 ∧ total_due rsC3 = 315 / 2 := by
  have hg : grand_subtotal rsC3 = 150 := by
    rw [grand_subtotal, show rsC3.map (fun r => r.amount) = [100, 50] from by decide]
    norm_num
  refine ⟨rfl, rfl, by decide, by decide, ?_, hg, ?_, ?_⟩
  · rw [po_total, show docsC3.map (fun d => doc_total d.2) = [doc_total [itC3a], doc_total [itC3b]] from rfl]
    rw [doc_total, doc_total,
      show [itC3a].map (fun it => it.amount) = [(100:ℚ)] from by decide,
      show [itC3b].map (fun it => it.amount) = [(50:ℚ)] from by decide]
    norm_num
  · rw [gst_amount, hg, gst_rate]; norm_num
  · rw [total_due, gst_amount, hg, gst_rate]; norm_num

theorem tenantFail_false_elim (t : Table) (h : tenantFail t = false) :
    "Client" ∈ t.cols ∧ ∀ r0, t.rows.head? = some r0 → r0.client = "HE01" := by
  unfold tenantFail at h
  split at h
  · exact absurd h (by simp)
  · next hc =>
    refine ⟨not_not.mp hc, fun r0 hr0 => ?_⟩
    rw [hr0] at h
    simpa using h

/-- C5 (amended): the tenant check inspects only the Client value of the
first raw row: validation rejects with the tenant diagnostic exactly when
the Client column is absent or the first raw row's Client value is not
HE01; a successful run only guarantees that first value, while a later
cleaned row may carry a different Client value. -/
theorem C5_tenant_first_row_only (t : Table) :
    (run t = .valError .clientError ↔ tenantFail t = true) ∧
    (∀ rs, run t = .ok rs →
      ("Client" ∈ t.cols ∧ ∃ r0, t.rows.head? = some r0 ∧ r0.client = "HE01")) := by
  constructor
  · unfold run tenantFail
    by_cases hc : "Client" ∉ t.cols
    · rw [if_pos hc, if_pos hc]
      simp
    · rw [if_neg hc, if_neg hc]
      rcases hh : t.rows.head? with _ | r0 <;> dsimp only
      · simp
      · by_cases hcl : r0.client ≠ "HE01"
        · rw [if_pos hcl]
          simp [hcl]
        · rw [if_neg hcl]
          constructor
          · intro hlhs
            exfalso
            rcases hr : resolvePo t.cols with _ | p <;> rw [hr] at hlhs <;> dsimp only at hlhs
            · exact absurd hlhs (by simp)
            · by_cases hb : "Billing Ref" ∉ t.cols
              · rw [if_pos hb] at hlhs
                exact absurd hlhs (by simp)
              · rw [if_neg hb] at hlhs
                rcases hcr : cleanRows t.rows with _ | rs2 <;> rw [hcr] at hlhs <;>
                  dsimp only at hlhs
                · exact absurd hlhs (by simp)
                · by_cases he : rs2.isEmpty <;> simp [he] at hlhs
          · intro hrhs
            exact absurd (by simpa using hrhs) hcl
  · intro rs hok
    unfold run at hok
    split at hok
    · exact absurd hok (by simp)
    · next hc =>
      split at hok
      · exact absurd hok (by simp)
      · next r0 hh =>
        split at hok
        · exact absurd hok (by simp)
        · next hcl => exact ⟨not_not.mp hc, r0, hh, not_not.mp hcl⟩

/-- C5 counterexample: a table whose first raw row passes the tenant check
is accepted even though a later cleaned row carries Client XX01, so not
every cleaned row has the accepted tenant code and the upload is not
rejected. -/
theorem C5_counterexample :
    run tC5 = .ok rsC5 ∧ rsC5.any (fun r => r.client ≠ "HE01") = true := by decide

/-- C5 witness: the amended theorem applied to the tenant fixture. -/
theorem C5_witness :
    "Client" ∈ tC5.cols ∧ ∃ r0, tC5.rows.head? = some r0 ∧ r0.client = "HE01" :=
  (C5_tenant_first_row_only tC5).2 rsC5 (by decide)

theorem colMapLookup_isSome_iff (cols : List String) (key : String) :
    (colMapLookup cols key).isSome ↔ ∃ c ∈ cols, normalize_col c = key := by
  rw [colMapLookup, List.getLast?_isSome, Ne, List.filter_eq_nil_iff]
  push_neg
  simp

/-- C6 (amended): the outer grouping column is resolved by normalizing
column names (case-insensitive, spaces removed) against the alias list
Header Reference 2 then Header User 2 only — a column named Header ref is
not accepted; resolution succeeds exactly when one of the two aliases is
present, prefers Header Reference 2, and when it fails on an otherwise
valid table the run stops with the diagnostic carrying the list of the
actual column names. -/
theorem C6_alias_resolution (cols : List String) (t : Table) :
    ((resolvePo cols).isSome ↔ ∃ c ∈ cols,
        normalize_col c = "headerreference2" ∨ normalize_col c = "headeruser2") ∧
    ((∃ c ∈ cols, normalize_col c = "headerreference2") →
        (resolvePo cols).map (fun p => p.2) = some "Header Reference 2") ∧
    (tenantFail t = false → t.rows ≠ [] → resolvePo t.cols = none →
        run t = .valError (.missingGroupCol t.cols)) := by
  refine ⟨?_, ?_, ?_⟩
  · rw [resolvePo]
    rcases h1 : colMapLookup cols "headerreference2" with _ | c1
    · rcases h2 : colMapLookup cols "headeruser2" with _ | c2
      · simp only [Option.isSome_none, Bool.false_eq_true, false_iff]
        rintro ⟨c, hcmem, hc | hc⟩
        · have := (colMapLookup_isSome_iff cols "headerreference2").mpr ⟨c, hcmem, hc⟩
          rw [h1] at this; simp at this
        · have := (colMapLookup_isSome_iff cols "headeruser2").mpr ⟨c, hcmem, hc⟩
          rw [h2] at this; simp at this
      · simp only [Option.isSome_some, true_iff]
        have := (colMapLookup_isSome_iff cols "headeruser2").mp (by rw [h2]; rfl)
        obtain ⟨c, hcmem, hc⟩ := this
        exact ⟨c, hcmem, Or.inr hc⟩
    · simp only [Option.isSome_some, true_iff]
      have := (colMapLookup_isSome_iff cols "headerreference2").mp (by rw [h1]; rfl)
      obtain ⟨c, hcmem, hc⟩ := this
      exact ⟨c, hcmem, Or.inl hc⟩
  · intro hex
    have h1 : (colMapLookup cols "headerreference2").isSome :=
      (colMapLookup_isSome_iff cols "headerreference2").mpr hex
    rcases hh : colMapLookup cols "headerreference2" with _ | c1
    · rw [hh] at h1; simp at h1
    · rw [resolvePo, hh]; rfl
  · intro htf hne hres
    obtain ⟨hc, hcl⟩ := tenantFail_false_elim t htf
    unfold run
    rw [if_neg (not_not.mpr hc)]
    rcases hh : t.rows.head? with _ | r0
    · exact absurd (List.head?_eq_none_iff.mp hh) hne
    · dsimp only
      rw [if_neg (not_not.mpr (hcl r0 hh)), hres]

/-- C6 counterexample: a table whose only outer-grouping column is named
Header ref fails resolution, although the claimed alias list contains
Header ref; the failure diagnostic carries the available column names. -/
theorem C6_counterexample :
    "Header ref" ∈ tC6.cols ∧ resolvePo tC6.cols = none ∧
      run tC6 = .valError (.missingGroupCol tC6.cols) := by decide

/-- C6 witness: the amended theorem applied to the Header ref fixture. -/
theorem C6_witness : run tC6 = .valError (.missingGroupCol tC6.cols) :=
  (C6_alias_resolution tC6.cols tC6).2.2 (by decide) (by decide) (by decide)

/-- C7 (amended): wrap_text with budget 35 returns a string of at most 35
characters unchanged as a single line (hence exactly one line at exactly
35 characters); but a whitespace-free string longer than the budget is NOT
hard-split at the character boundary: the word loop first commits an empty
line and then emits the oversized token whole, so the result is the empty
line followed by the original string — concatenating the returned lines
still reconstructs the original with nothing lost or duplicated. -/
theorem C7_wrap_text_behaviour (s tkn : String) (hs : s.length ≤ 35)
    (h1 : 35 < tkn.length) (h2 : pySplit tkn = [tkn]) :
    wrap_text s 35 = [s] ∧ wrap_text tkn 35 = ["", tkn] ∧
      (wrap_text tkn 35).foldl (fun a b => a ++ b) "" = tkn := by
  have hne : tkn ≠ "" := by
    intro he
    rw [he] at h1
    exact absurd h1 (by decide)
  have hw : wrap_text tkn 35 = ["", tkn] := by
    have hc : ¬ (tkn.length ≤ 34) := by omega
    have hlen : ¬ (tkn.length ≤ 35) := by omega
    simp only [wrap_text, if_neg hlen, h2, List.foldl_cons, List.foldl_nil, wrapStep]
    simp [hne, hc]
  refine ⟨by rw [wrap_text, if_pos hs], hw, ?_⟩
  rw [hw]
  simp only [List.foldl_cons, List.foldl_nil]
  rw [show ("" : String) ++ "" = "" from rfl]
  exact String.empty_append tkn

/-- C7 counterexample: on the 36-character whitespace-free string the
claimed hard character-boundary split does not happen: wrap_text returns
an empty line followed by the whole 36-character token, so not every
returned line is within the 35-character budget. -/
theorem C7_counterexample :
    wrap_text s36 35 = ["", s36] ∧ ¬ (∀ l ∈ wrap_text s36 35, l.length ≤ 35) := by
  constructor
  · decide
  · intro hall
    have h36 : s36 ∈ wrap_text s36 35 := by decide
    have := hall s36 h36
    exact absurd this (by decide)

/-- C7 witness: the amended theorem applied to a short string and to the
36-character token. -/
theorem C7_witness :
    wrap_text "abc" 35 = ["abc"] ∧ wrap_text s36 35 = ["", s36] ∧
      (wrap_text s36 35).foldl (fun a b => a ++ b) "" = s36 :=
  ⟨(C7_wrap_text_behaviour "abc" s36 (by decide) (by decide) (by decide)).1,
   (C7_wrap_text_behaviour "abc" s36 (by decide) (by decide) (by decide)).2.1,
   (C7_wrap_text_behaviour "abc" s36 (by decide) (by decide) (by decide)).2.2⟩

theorem cleanRows_err_iff (rows : List RawRow) :
    cleanRows rows = .err ↔ (rows.filter keepAmt).any (fun r => r.qty.isStr) = true := by
  simp only [cleanRows]
  split
  · next hcond => simp [hcond]
  · next hcond => simp [hcond]

theorem cleanRows_ok_no_qtyStr (rows : List RawRow) (rs : List CleanRow)
    (h : cleanRows rows = .ok rs) :
    (rows.filter keepAmt).any (fun r => r.qty.isStr) = false := by
  by_contra hq
  rw [Bool.not_eq_false] at hq
  have herr := (cleanRows_err_iff rows).mpr hq
  rw [herr] at h
  exact CleanResult.noConfusion h

theorem cleanRows_ok_isEmpty (rows : List RawRow) (rs : List CleanRow)
    (h : cleanRows rows = .ok rs) :
    rs.isEmpty = (rows.filter amtPos).isEmpty := by
  rw [cleanRows_ok_eq rows rs h]
  cases rows.filter amtPos <;> simp

/-- C4 (amended): on a non-empty raw table, the pipeline stops with one of
the validation diagnostics exactly when the tenant check fails, a required
grouping column is missing (the outer column after its aliases, or the
Billing Ref column), or the cleaned row set is empty while no kept row has
a non-numeric string Charge Qty — a kept row with a string quantity
instead aborts the run with an uncaught coercion exception before the
empty-set diagnostic; a validation failure never also produces a cleaned
output. -/
theorem C4_validation_failures (t : Table) (h : t.rows ≠ []) :
    ((∃ e, run t = .valError e) ↔
      (tenantFail t || outerMissing t || billingMissing t ||
        (!qtyStrCond t && cleanedEmpty t)) = true) ∧
    (∀ e rs, run t = .valError e → run t ≠ .ok rs) := by
  constructor
  · obtain ⟨r0, rest, hrows⟩ : ∃ r0 rest, t.rows = r0 :: rest := by
      cases hr : t.rows with
      | nil => exact absurd hr h
      | cons a b => exact ⟨a, b, rfl⟩
    have hh : t.rows.head? = some r0 := by rw [hrows]; rfl
    unfold run tenantFail outerMissing billingMissing
    by_cases hc : "Client" ∉ t.cols
    · rw [if_pos hc, if_pos hc]
      exact iff_of_true ⟨.clientError, rfl⟩ (by simp)
    · rw [if_neg hc, if_neg hc, hh]
      dsimp only
      by_cases hcl : r0.client ≠ "HE01"
      · rw [if_pos hcl]
        exact iff_of_true ⟨.clientError, rfl⟩ (by simp [hcl])
      · rw [if_neg hcl]
        rcases hres : resolvePo t.cols with _ | p <;> dsimp only
        · exact iff_of_true ⟨.missingGroupCol t.cols, rfl⟩ (by simp [hres])
        · by_cases hb : "Billing Ref" ∉ t.cols
          · rw [if_pos hb]
            refine iff_of_true ⟨.missingBillingRef, rfl⟩ ?_
            simp [hb, hres]
          · rw [if_neg hb]
            rcases hcr : cleanRows t.rows with _ | rs <;> dsimp only
            · refine iff_of_false ?_ ?_
              · rintro ⟨e, he⟩
                exact RunResult.noConfusion he
              · have hq : qtyStrCond t = true := (cleanRows_err_iff t.rows).mp hcr
                simp [hq, hres, hcl, hb, hc]
            · by_cases he : rs.isEmpty
              · rw [if_pos he]
                refine iff_of_true ⟨.noValidCharges, rfl⟩ ?_
                have hq : qtyStrCond t = false := cleanRows_ok_no_qtyStr t.rows rs hcr
                have hce : cleanedEmpty t = true := by
                  rw [cleanedEmpty, List.isEmpty_iff, ← List.isEmpty_iff,
                    ← cleanRows_ok_isEmpty t.rows rs hcr]
                  exact he
                simp [hq, hce]
              · rw [if_neg he]
                refine iff_of_false ?_ ?_
                · rintro ⟨e, hee⟩
                  exact RunResult.noConfusion hee
                · have hq : qtyStrCond t = false := cleanRows_ok_no_qtyStr t.rows rs hcr
                  have hce : cleanedEmpty t = false := by
                    rw [cleanedEmpty, ← cleanRows_ok_isEmpty t.rows rs hcr]
                    simpa using he
                  simp [hq, hce, hres, hcl, hb, hc]
  · intro e rs h1 h2
    rw [h1] at h2
    exact RunResult.noConfusion h2

/-- C4 counterexample: a table whose cleaned row set is empty but whose
only kept row carries a non-numeric string Charge Qty does not fail
validation with a diagnostic: the run crashes in the quantity coercion
before the empty-set check. -/
theorem C4_counterexample :
    cleanedEmpty tC4 = true ∧ run tC4 = .crash ∧ ∀ e, run tC4 ≠ .valError e := by
  refine ⟨by decide, by decide, fun e hh => ?_⟩
  rw [show run tC4 = .crash from by decide] at hh
  exact RunResult.noConfusion hh

/-- C4 witness: the amended theorem applied to the Header ref fixture,
whose outer grouping column is missing. -/
theorem C4_witness : ∃ e, run tC6 = .valError e :=
  (C4_validation_failures tC6 (by decide)).1.mpr (by decide)

theorem allDocItems_insertDoc (docs : Docs) (doc : String) (it : Item) :
    (allDocItems (insertDoc docs doc it)).Perm (it :: allDocItems docs) := by
  induction docs with
  | nil => simp [insertDoc, allDocItems]
  | cons d rest ih =>
    obtain ⟨k, its⟩ := d
    by_cases hk : k = doc
    · subst hk
      simp only [insertDoc, if_pos rfl, allDocItems, List.map_cons, List.flatten_cons,
        ite_true, eq_self_iff_true]
      rw [List.append_assoc]
      exact List.perm_middle
    · simp only [insertDoc, if_neg hk, allDocItems, List.map_cons, List.flatten_cons] at ih ⊢
      exact (ih.append_left its).trans List.perm_middle

theorem allItems_insertPo (gs : Groups) (po doc : String) (it : Item) :
    (allItems (insertPo gs po doc it)).Perm (it :: allItems gs) := by
  induction gs with
  | nil => simp [insertPo, allItems, allDocItems]
  | cons g rest ih =>
    obtain ⟨p, docs⟩ := g
    by_cases hp : p = po
    · subst hp
      simp only [insertPo, if_pos rfl, allItems, List.map_cons, List.flatten_cons,
        ite_true, eq_self_iff_true]
      exact (allDocItems_insertDoc docs doc it).append_right _
    · simp only [insertPo, if_neg hp, allItems, List.map_cons, List.flatten_cons] at ih ⊢
      exact (ih.append_left (allDocItems docs)).trans List.perm_middle

theorem allItems_foldl (rs : List CleanRow) (gs : Groups) :
    (allItems (rs.foldl
        (fun a r => insertPo a (norm_key r.outer) (norm_key r.inner) (to_item r)) gs)).Perm
      (allItems gs ++ rs.map to_item) := by
  induction rs generalizing gs with
  | nil => simp
  | cons r rest ih =>
    simp only [List.foldl_cons, List.map_cons]
    refine (ih _).trans ?_
    refine ((allItems_insertPo gs (norm_key r.outer) (norm_key r.inner)
      (to_item r)).append_right (rest.map to_item)).trans ?_
    exact List.perm_middle.symm

theorem insertDoc_keys (docs : Docs) (doc : String) (it : Item) :
    (insertDoc docs doc it).map (fun d => d.1) =
      if doc ∈ docs.map (fun d => d.1) then docs.map (fun d => d.1)
      else docs.map (fun d => d.1) ++ [doc] := by
  induction docs with
  | nil => simp [insertDoc]
  | cons d rest ih =>
    obtain ⟨k, its⟩ := d
    by_cases hk : k = doc
    · subst hk
      simp [insertDoc]
    · simp only [insertDoc, if_neg hk, List.map_cons, ih]
      by_cases hmem : doc ∈ rest.map (fun d => d.1)
      · rw [if_pos hmem, if_pos (by simp [hmem])]
      · rw [if_neg hmem, if_neg (by simp [hmem, Ne.symm hk])]
        simp

theorem insertPo_keys (gs : Groups) (po doc : String) (it : Item) :
    (insertPo gs po doc it).map (fun g => g.1) =
      if po ∈ gs.map (fun g => g.1) then gs.map (fun g => g.1)
      else gs.map (fun g => g.1) ++ [po] := by
  induction gs with
  | nil => simp [insertPo]
  | cons g rest ih =>
    obtain ⟨p, docs⟩ := g
    by_cases hp : p = po
    · subst hp
      simp [insertPo]
    · simp only [insertPo, if_neg hp, List.map_cons, ih]
      by_cases hmem : po ∈ rest.map (fun g => g.1)
      · rw [if_pos hmem, if_pos (by simp [hmem])]
      · rw [if_neg hmem, if_neg (by simp [hmem, Ne.symm hp])]
        simp

theorem insertPo_keys_nodup (gs : Groups) (po doc : String) (it : Item)
    (h : (gs.map (fun g => g.1)).Nodup) :
    ((insertPo gs po doc it).map (fun g => g.1)).Nodup := by
  rw [insertPo_keys]
  split
  · exact h
  · next hmem =>
    rw [List.nodup_append]
    exact ⟨h, List.nodup_singleton po, by simp [hmem]⟩

theorem foldl_keys_nodup (rs : List CleanRow) (gs : Groups)
    (h : (gs.map (fun g => g.1)).Nodup) :
    ((rs.foldl (fun a r => insertPo a (norm_key r.outer) (norm_key r.inner)
        (to_item r)) gs).map (fun g => g.1)).Nodup := by
  induction rs generalizing gs with
  | nil => exact h
  | cons r rest ih =>
    exact ih _ (insertPo_keys_nodup gs _ _ _ h)

theorem insertDoc_keys_nodup (docs : Docs) (doc : String) (it : Item)
    (h : (docs.map (fun d => d.1)).Nodup) :
    ((insertDoc docs doc it).map (fun d => d.1)).Nodup := by
  rw [insertDoc_keys]
  split
  · exact h
  · next hmem =>
    rw [List.nodup_append]
    exact ⟨h, List.nodup_singleton doc, by simp [hmem]⟩

theorem insertPo_mem_elim (gs : Groups) (po doc : String) (it : Item) (g : String × Docs)
    (hg : g ∈ insertPo gs po doc it) :
    g ∈ gs ∨ (∃ docs, (g.1, docs) ∈ gs ∧ g.2 = insertDoc docs doc it) ∨
      g = (po, [(doc, [it])]) := by
  induction gs with
  | nil =>
    simp only [insertPo, List.mem_singleton] at hg
    exact Or.inr (Or.inr hg)
  | cons d rest ih =>
    obtain ⟨p, docs⟩ := d
    by_cases hp : p = po
    · subst hp
      simp only [insertPo, if_pos rfl, List.mem_cons, ite_true, eq_self_iff_true] at hg
      rcases hg with hg1 | hg1
      · refine Or.inr (Or.inl ⟨docs, ?_, ?_⟩)
        · rw [hg1]; exact List.mem_cons_self _ _
        · rw [hg1]
      · exact Or.inl (List.mem_cons_of_mem _ hg1)
    · simp only [insertPo, if_neg hp, List.mem_cons] at hg
      rcases hg with hg1 | hg1
      · exact Or.inl (by rw [hg1]; exact List.mem_cons_self _ _)
      · rcases ih hg1 with h1 | h1 | h1
        · exact Or.inl (List.mem_cons_of_mem _ h1)
        · obtain ⟨ds, hds, he⟩ := h1
          exact Or.inr (Or.inl ⟨ds, List.mem_cons_of_mem _ hds, he⟩)
        · exact Or.inr (Or.inr h1)

theorem insertPo_inner_nodup (gs : Groups) (po doc : String) (it : Item)
    (h : ∀ g ∈ gs, (g.2.map (fun d => d.1)).Nodup) :
    ∀ g ∈ insertPo gs po doc it, (g.2.map (fun d => d.1)).Nodup := by
  intro g hg
  rcases insertPo_mem_elim gs po doc it g hg with h1 | h1 | h1
  · exact h g h1
  · obtain ⟨ds, hds, he⟩ := h1
    rw [he]
    exact insertDoc_keys_nodup ds doc it (h (g.1, ds) hds)
  · rw [h1]
    simp

theorem foldl_inner_nodup (rs : List CleanRow) (gs : Groups)
    (h : ∀ g ∈ gs, (g.2.map (fun d => d.1)).Nodup) :
    ∀ g ∈ rs.foldl (fun a r => insertPo a (norm_key r.outer) (norm_key r.inner)
        (to_item r)) gs, (g.2.map (fun d => d.1)).Nodup := by
  induction rs generalizing gs with
  | nil => exact h
  | cons r rest ih =>
    exact ih _ (insertPo_inner_nodup gs _ _ _ h)

theorem findDocs_insertPo_self (gs : Groups) (po doc : String) (it : Item) :
    findDocs (insertPo gs po doc it) po =
      some (match findDocs gs po with
            | none => [(doc, [it])]
            | some docs => insertDoc docs doc it) := by
  induction gs with
  | nil => simp [insertPo, findDocs]
  | cons g rest ih =>
    obtain ⟨p, docs⟩ := g
    by_cases hp : p = po
    · subst hp
      simp [insertPo, findDocs]
    · simp only [insertPo, if_neg hp, findDocs] at ih ⊢
      rw [List.find?_cons_of_neg _ (by simpa using hp),
        List.find?_cons_of_neg _ (by simpa using hp)]
      exact ih

theorem findDocs_insertPo_ne (gs : Groups) (po doc : String) (it : Item) (po' : String)
    (hne : po' ≠ po) :
    findDocs (insertPo gs po doc it) po' = findDocs gs po' := by
  induction gs with
  | nil => simp [insertPo, findDocs, Ne.symm hne]
  | cons g rest ih =>
    obtain ⟨p, docs⟩ := g
    by_cases hp : p = po
    · subst hp
      simp only [insertPo, if_pos rfl, findDocs, ite_true, eq_self_iff_true]
      rw [List.find?_cons_of_neg _ (by simpa using Ne.symm hne),
        List.find?_cons_of_neg _ (by simpa using Ne.symm hne)]
    · simp only [insertPo, if_neg hp, findDocs] at ih ⊢
      by_cases hp' : p = po'
      · subst hp'
        rw [List.find?_cons_of_pos _ (by simp), List.find?_cons_of_pos _ (by simp)]
      · rw [List.find?_cons_of_neg _ (by simpa using hp'),
          List.find?_cons_of_neg _ (by simpa using hp')]
        exact ih

theorem findItems_insertDoc_self (docs : Docs) (doc : String) (it : Item) :
    findItems (insertDoc docs doc it) doc =
      some ((match findItems docs doc with | none => [] | some its => its) ++ [it]) := by
  induction docs with
  | nil => simp [insertDoc, findItems]
  | cons d rest ih =>
    obtain ⟨k, its⟩ := d
    by_cases hk : k = doc
    · subst hk
      simp [insertDoc, findItems]
    · simp only [insertDoc, if_neg hk, findItems] at ih ⊢
      rw [List.find?_cons_of_neg _ (by simpa using hk),
        List.find?_cons_of_neg _ (by simpa using hk)]
      exact ih

theorem findItems_insertDoc_ne (docs : Docs) (doc : String) (it : Item) (doc' : String)
    (hne : doc' ≠ doc) :
    findItems (insertDoc docs doc it) doc' = findItems docs doc' := by
  induction docs with
  | nil => simp [insertDoc, findItems, Ne.symm hne]
  | cons d rest ih =>
    obtain ⟨k, its⟩ := d
    by_cases hk : k = doc
    · subst hk
      simp only [insertDoc, if_pos rfl, findItems, ite_true, eq_self_iff_true]
      rw [List.find?_cons_of_neg _ (by simpa using Ne.symm hne),
        List.find?_cons_of_neg _ (by simpa using Ne.symm hne)]
    · simp only [insertDoc, if_neg hk, findItems] at ih ⊢
      by_cases hk' : k = doc'
      · subst hk'
        rw [List.find?_cons_of_pos _ (by simp), List.find?_cons_of_pos _ (by simp)]
      · rw [List.find?_cons_of_neg _ (by simpa using hk'),
          List.find?_cons_of_neg _ (by simpa using hk')]
        exact ih

theorem placed_insertPo_self (gs : Groups) (po doc : String) (it : Item) :
    ∃ docs, findDocs (insertPo gs po doc it) po = some docs ∧
      ∃ its, findItems docs doc = some its ∧ it ∈ its := by
  rw [findDocs_insertPo_self]
  rcases hf : findDocs gs po with _ | docs
  · exact ⟨[(doc, [it])], rfl, [it], by simp [findItems], by simp⟩
  · refine ⟨insertDoc docs doc it, rfl, ?_⟩
    rw [findItems_insertDoc_self]
    exact ⟨_, rfl, by simp⟩

theorem placed_insertPo_pres (gs : Groups) (po doc : String) (it : Item)
    (po' doc' : String) (x : Item)
    (h : ∃ docs, findDocs gs po' = some docs ∧
      ∃ its, findItems docs doc' = some its ∧ x ∈ its) :
    ∃ docs, findDocs (insertPo gs po doc it) po' = some docs ∧
      ∃ its, findItems docs doc' = some its ∧ x ∈ its := by
  obtain ⟨docs, hdocs, its, hits, hx⟩ := h
  by_cases hpo : po' = po
  · subst hpo
    rw [findDocs_insertPo_self, hdocs]
    refine ⟨insertDoc docs doc it, rfl, ?_⟩
    by_cases hdoc : doc' = doc
    · subst hdoc
      rw [findItems_insertDoc_self, hits]
      exact ⟨its ++ [it], rfl, List.mem_append_left _ hx⟩
    · rw [findItems_insertDoc_ne docs doc it doc' hdoc, hits]
      exact ⟨its, rfl, hx⟩
  · rw [findDocs_insertPo_ne gs po doc it po' hpo, hdocs]
    exact ⟨docs, rfl, its, hits, hx⟩

theorem placed_foldl_pres (rest : List CleanRow) (gs : Groups)
    (po' doc' : String) (x : Item)
    (h : ∃ docs, findDocs gs po' = some docs ∧
      ∃ its, findItems docs doc' = some its ∧ x ∈ its) :
    ∃ docs, findDocs (rest.foldl (fun a r => insertPo a (norm_key r.outer)
        (norm_key r.inner) (to_item r)) gs) po' = some docs ∧
      ∃ its, findItems docs doc' = some its ∧ x ∈ its := by
  induction rest generalizing gs with
  | nil => exact h
  | cons r tail ih =>
    exact ih _ (placed_insertPo_pres gs _ _ _ po' doc' x h)

theorem placed_foldl (rs : List CleanRow) (gs : Groups) :
    ∀ r ∈ rs, ∃ docs, findDocs (rs.foldl (fun a r => insertPo a (norm_key r.outer)
        (norm_key r.inner) (to_item r)) gs) (norm_key r.outer) = some docs ∧
      ∃ its, findItems docs (norm_key r.inner) = some its ∧ to_item r ∈ its := by
  induction rs generalizing gs with
  | nil => intro r hr; exact absurd hr (List.not_mem_nil r)
  | cons a rest ih =>
    intro r hr
    rcases List.mem_cons.mp hr with hr | hr
    · subst hr
      simp only [List.foldl_cons]
      exact placed_foldl_pres rest _ _ _ _ (placed_insertPo_self gs _ _ _)
    · simp only [List.foldl_cons]
      exact ih _ r hr

/-- C2: the two-level grouping partitions exactly the cleaned rows: the
cleaned set is precisely the rows with numeric positive amount (non-numeric
or non-positive amounts appear in no group or rollup); the grouped items
are a permutation of the cleaned rows' items; outer keys and each group's
inner keys are duplicate-free; every cleaned row is findable in the group
of its normalized keys; and a missing key normalizes to the UNSPECIFIED
sentinel. -/
theorem C2_grouping_partition (rows : List RawRow) (rs : List CleanRow)
    (h : cleanRows rows = .ok rs) :
    rs = (rows.filter amtPos).map toCleanRow ∧
    (allItems (po_groups rs)).Perm (rs.map to_item) ∧
    ((po_groups rs).map (fun g => g.1)).Nodup ∧
    (∀ g ∈ po_groups rs, (g.2.map (fun d => d.1)).Nodup) ∧
    (∀ r ∈ rs, ∃ docs, findDocs (po_groups rs) (norm_key r.outer) = some docs ∧
        ∃ its, findItems docs (norm_key r.inner) = some its ∧ to_item r ∈ its) ∧
    norm_key none = "UNSPECIFIED" := by
  refine ⟨cleanRows_ok_eq rows rs h, ?_, ?_, ?_, ?_, rfl⟩
  · have := allItems_foldl rs []
    simpa [po_groups, allItems] using this
  · exact foldl_keys_nodup rs [] (by simp)
  · exact foldl_inner_nodup rs [] (by simp)
  · exact placed_foldl rs []

/-- C2 witness: the grouping theorem applied to the fixture with a missing
outer key, a padded outer key with missing inner key, and a dropped
non-numeric-amount row. -/
theorem C2_witness :
    cleanRows rowsC2 = .ok rsC2 ∧ (allItems (po_groups rsC2)).Perm (rsC2.map to_item) :=
  ⟨by decide, (C2_grouping_partition rowsC2 rsC2 (by decide)).2.1⟩

theorem nanAdd_left_none (q : Option ℚ) : nanAdd none q = none := by
  cases q <;> rfl

theorem nanAdd_right_none (q : Option ℚ) : nanAdd q none = none := by
  cases q <;> rfl

theorem rollupLookup_rollupAdd_self (m : List (SKey × (Option ℚ × ℚ))) (k : SKey)
    (q : Option ℚ) (a : ℚ) :
    rollupLookup (rollupAdd m k q a) k =
      some (match rollupLookup m k with
            | none => (nanAdd (some 0) q, 0 + a)
            | some v => (nanAdd v.1 q, v.2 + a)) := by
  induction m with
  | nil => simp [rollupAdd, rollupLookup]
  | cons e rest ih =>
    obtain ⟨k', v⟩ := e
    by_cases hk : k' = k
    · subst hk
      simp [rollupAdd, rollupLookup]
    · simp only [rollupAdd, if_neg hk, rollupLookup] at ih ⊢
      rw [List.find?_cons_of_neg _ (by simpa using hk),
        List.find?_cons_of_neg _ (by simpa using hk)]
      exact ih

theorem rollupLookup_rollupAdd_ne (m : List (SKey × (Option ℚ × ℚ))) (k : SKey)
    (q : Option ℚ) (a : ℚ) (k' : SKey) (hne : k' ≠ k) :
    rollupLookup (rollupAdd m k q a) k' = rollupLookup m k' := by
  induction m with
  | nil => simp [rollupAdd, rollupLookup, Ne.symm hne]
  | cons e rest ih =>
    obtain ⟨k0, v⟩ := e
    by_cases hk : k0 = k
    · subst hk
      simp only [rollupAdd, if_pos rfl, rollupLookup, ite_true, eq_self_iff_true]
      rw [List.find?_cons_of_neg _ (by simpa using Ne.symm hne),
        List.find?_cons_of_neg _ (by simpa using Ne.symm hne)]
    · simp only [rollupAdd, if_neg hk, rollupLookup] at ih ⊢
      by_cases hk' : k0 = k'
      · subst hk'
        rw [List.find?_cons_of_pos _ (by simp), List.find?_cons_of_pos _ (by simp)]
      · rw [List.find?_cons_of_neg _ (by simpa using hk'),
          List.find?_cons_of_neg _ (by simpa using hk')]
        exact ih

theorem global_service_poison (rs : List CleanRow) (k : SKey)
    (acc : List (SKey × (Option ℚ × ℚ)))
    (h : (∃ r ∈ rs, (r.serviceCode, r.description, r.unit) = k ∧ r.qty = none) ∨
      (∃ a, rollupLookup acc k = some (none, a))) :
    ∃ a, rollupLookup (rs.foldl (fun m r =>
        rollupAdd m (r.serviceCode, r.description, r.unit) r.qty r.amount) acc) k
      = some (none, a) := by
  induction rs generalizing acc with
  | nil =>
    rcases h with h | h
    · obtain ⟨r, hr, _⟩ := h
      exact absurd hr (List.not_mem_nil r)
    · exact h
  | cons r rest ih =>
    simp only [List.foldl_cons]
    apply ih
    rcases h with ⟨r', hr', hkey, hq⟩ | ⟨a, ha⟩
    · rcases List.mem_cons.mp hr' with he | he
      · rw [he] at hkey hq
        right
        rw [← hkey, rollupLookup_rollupAdd_self, hq]
        rcases hacc : rollupLookup acc (r.serviceCode, r.description, r.unit) with _ | v
        · exact ⟨0 + r.amount, by simp [nanAdd_right_none]⟩
        · exact ⟨v.2 + r.amount, by simp [nanAdd_right_none]⟩
      · exact Or.inl ⟨r', he, hkey, hq⟩
    · right
      by_cases hk : (r.serviceCode, r.description, r.unit) = k
      · rw [← hk] at ha ⊢
        rw [rollupLookup_rollupAdd_self, ha]
        exact ⟨a + r.amount, by simp [nanAdd_left_none]⟩
      · rw [rollupLookup_rollupAdd_ne _ _ _ _ _ (fun hh => hk hh.symm)]
        exact ⟨a, ha⟩

theorem items_rollup_poison (l : List Item) (k : SKey)
    (acc : List (SKey × (Option ℚ × ℚ)))
    (h : (∃ it ∈ l, (it.serviceCode, it.description, it.unit) = k ∧ it.qty = none) ∨
      (∃ a, rollupLookup acc k = some (none, a))) :
    ∃ a, rollupLookup (l.foldl (fun m it =>
        rollupAdd m (it.serviceCode, it.description, it.unit) it.qty it.amount) acc) k
      = some (none, a) := by
  induction l generalizing acc with
  | nil =>
    rcases h with h | h
    · obtain ⟨it, hit, _⟩ := h
      exact absurd hit (List.not_mem_nil it)
    · exact h
  | cons it rest ih =>
    simp only [List.foldl_cons]
    apply ih
    rcases h with ⟨it', hit', hkey, hq⟩ | ⟨a, ha⟩
    · rcases List.mem_cons.mp hit' with he | he
      · rw [he] at hkey hq
        right
        rw [← hkey, rollupLookup_rollupAdd_self, hq]
        rcases hacc : rollupLookup acc (it.serviceCode, it.description, it.unit) with _ | v
        · exact ⟨0 + it.amount, by simp [nanAdd_right_none]⟩
        · exact ⟨v.2 + it.amount, by simp [nanAdd_right_none]⟩
      · exact Or.inl ⟨it', he, hkey, hq⟩
    · right
      by_cases hk : (it.serviceCode, it.description, it.unit) = k
      · rw [← hk] at ha ⊢
        rw [rollupLookup_rollupAdd_self, ha]
        exact ⟨a + it.amount, by simp [nanAdd_left_none]⟩
      · rw [rollupLookup_rollupAdd_ne _ _ _ _ _ (fun hh => hk hh.symm)]
        exact ⟨a, ha⟩

theorem mem_allDocItems_of_findItems (docs : Docs) (doc : String)
    (its : List Item) (x : Item) (hits : findItems docs doc = some its)
    (hmem : x ∈ its) : x ∈ allDocItems docs := by
  rw [findItems] at hits
  obtain ⟨d, hd, hd2⟩ := Option.map_eq_some'.mp hits
  rw [allDocItems]
  refine List.mem_flatten.mpr ⟨d.2, List.mem_map_of_mem _ (List.mem_of_find?_eq_some hd), ?_⟩
  rw [hd2]
  exact hmem

/-- C10 (amended): row filtering depends only on the Charge Amount column,
and a kept row whose Charge Qty is MISSING (NaN) is not dropped — it
enters the cleaned set with quantity NaN, which propagates into the summed
quantity of its service key both in the global service rollup and in the
per-group service rollup of the outer group the row lands in; but a kept
row whose Charge Qty is a non-numeric string does not enter the cleaned
set with NaN: the quantity coercion raises and aborts the whole run. -/
theorem C10_qty_nan (rows : List RawRow) (rs : List CleanRow)
    (h : cleanRows rows = .ok rs) :
    (∀ r ∈ rows, amtPos r = true → r.qty = Cell.na →
        toCleanRow r ∈ rs ∧ (toCleanRow r).qty = none) ∧
    (∀ k, (∃ r ∈ rs, (r.serviceCode, r.description, r.unit) = k ∧ r.qty = none) →
        ∃ a, rollupLookup (global_service rs) k = some (none, a)) ∧
    (∀ r ∈ rs, r.qty = none → ∃ docs,
        findDocs (po_groups rs) (norm_key r.outer) = some docs ∧
        ∃ a, rollupLookup (po_service docs)
          (r.serviceCode, r.description, r.unit) = some (none, a)) := by
  refine ⟨?_, ?_, ?_⟩
  · intro r hr hpos hna
    constructor
    · rw [cleanRows_ok_eq rows rs h]
      exact List.mem_map_of_mem _ (List.mem_filter.mpr ⟨hr, hpos⟩)
    · simp [toCleanRow, hna]
  · intro k hex
    exact global_service_poison rs k [] (Or.inl hex)
  · intro r hr hq
    obtain ⟨docs, hdocs, its, hits, hmem⟩ := placed_foldl rs [] r hr
    refine ⟨docs, hdocs, ?_⟩
    apply items_rollup_poison (allDocItems docs) _ []
    left
    refine ⟨to_item r, mem_allDocItems_of_findItems docs _ its (to_item r) hits hmem,
      rfl, ?_⟩
    show r.qty = none
    exact hq

/-- C10 counterexample: a kept row with a non-numeric string Charge Qty
does not enter the cleaned set with quantity NaN — the run crashes in the
quantity coercion instead, so no cleaned set is produced at all. -/
theorem C10_counterexample :
    rowC10s.qty.isStr = true ∧ amtPos rowC10s = true ∧ run tC10 = .crash ∧
      ∀ rs, run tC10 ≠ .ok rs := by
  refine ⟨by decide, by decide, by decide, fun rs hh => ?_⟩
  rw [show run tC10 = .crash from by decide] at hh
  exact RunResult.noConfusion hh

/-- C10 witness: the amended theorem applied to the fixture whose kept row
has a missing quantity, for both the global and the per-group rollup. -/
theorem C10_witness :
    (∃ a, rollupLookup (global_service rsC10) ("S", "d", "EA") = some (none, a)) ∧
    (∃ docs, findDocs (po_groups rsC10) "P" = some docs ∧
      ∃ a, rollupLookup (po_service docs) ("S", "d", "EA") = some (none, a)) :=
  ⟨(C10_qty_nan rowsC10 rsC10 (by decide)).2.1 ("S", "d", "EA")
    ⟨⟨"HE01", some "P", some "D", "S", "d", none, "EA", 1, 5, none⟩,
      by decide, by decide, by decide⟩,
   (C10_qty_nan rowsC10 rsC10 (by decide)).2.2
    ⟨"HE01", some "P", some "D", "S", "d", none, "EA", 1, 5, none⟩
    (by decide) (by decide)⟩

/-- C9 (amended): every page-break site fires exactly at its threshold
(150 for summary, group-summary and group-head lines, 200 before a
document box, 150 before the totals) and increments the page number, but
only the group-head and document breaks re-emit the two running header
lines (continuing 80 points below the 742 top margin); the summary breaks
reset the cursor to the top margin with no header, and the totals break
resets it to 692 (100 below the top edge) with no header. -/
theorem C9_page_break_behaviour (s : St) :
    (s.y < 150 → summaryBreak s =
        ⟨s.page + 1, 742, s.evs ++ [.newPage (s.page + 1)], s.lows, s.dropped⟩) ∧
    (150 ≤ s.y → summaryBreak s = s) ∧
    (s.y < 150 → poBreak s = ⟨s.page + 1, 662,
        s.evs ++ [.newPage (s.page + 1), .text (s.page + 1) 742 .pageHeader,
          .text (s.page + 1) 742 .pageHeader], s.lows, s.dropped⟩) ∧
    (150 ≤ s.y → poBreak s = s) ∧
    (s.y < 200 → docBreak s = ⟨s.page + 1, 662,
        s.evs ++ [.newPage (s.page + 1), .text (s.page + 1) 742 .pageHeader,
          .text (s.page + 1) 742 .pageHeader], s.lows, s.dropped⟩) ∧
    (200 ≤ s.y → docBreak s = s) ∧
    (s.y < 150 → totalsBreak s =
        ⟨s.page + 1, 692, s.evs ++ [.newPage (s.page + 1)], s.lows, s.dropped⟩) ∧
    (150 ≤ s.y → totalsBreak s = s) := by
  refine ⟨?_, ?_, ?_, ?_, ?_, ?_, ?_, ?_⟩ <;> intro h
  · rw [summaryBreak, if_pos h]
  · rw [summaryBreak, if_neg (by omega)]
  · rw [poBreak, if_pos h]
    norm_num
  · rw [poBreak, if_neg (by omega)]
  · rw [docBreak, if_pos h]
    norm_num
  · rw [docBreak, if_neg (by omega)]
  · rw [totalsBreak, if_pos h]
    norm_num
  · rw [totalsBreak, if_neg (by omega)]

/-- C9 counterexample: the totals page break increments the page number
but re-emits no running header line and resets the cursor to 692 rather
than the 742 top margin; the summary page break likewise emits no header. -/
theorem C9_counterexample :
    (totalsBreak ⟨1, 100, [], [], 0⟩).page = 2 ∧
    (totalsBreak ⟨1, 100, [], [], 0⟩).y ≠ 742 ∧
    (totalsBreak ⟨1, 100, [], [], 0⟩).evs.all (fun e => !isHeaderEv e) = true ∧
    (summaryBreak ⟨1, 100, [], [], 0⟩).evs.all (fun e => !isHeaderEv e) = true := by
  decide

/-- C9 witness: the amended theorem applied at concrete layout states on
both sides of the thresholds. -/
theorem C9_witness :
    poBreak ⟨1, 100, [], [], 0⟩ = ⟨2, 662,
        [.newPage 2, .text 2 742 .pageHeader, .text 2 742 .pageHeader], [], 0⟩ ∧
      summaryBreak ⟨3, 500, [], [], 0⟩ = ⟨3, 500, [], [], 0⟩ :=
  ⟨(C9_page_break_behaviour ⟨1, 100, [], [], 0⟩).2.2.1 (by decide),
   (C9_page_break_behaviour ⟨3, 500, [], [], 0⟩).2.1 (by decide)⟩

theorem emit_page (s : St) (t : Tag) (yAt : Int) : (emit s t yAt).page = s.page := rfl

theorem emit_y (s : St) (t : Tag) (yAt : Int) : (emit s t yAt).y = s.y := rfl

theorem emit_lows (s : St) (t : Tag) (yAt : Int) : (emit s t yAt).lows = s.lows := rfl

theorem emit_dropped (s : St) (t : Tag) (yAt : Int) : (emit s t yAt).dropped = s.dropped := rfl

theorem emit_evs (s : St) (t : Tag) (yAt : Int) :
    (emit s t yAt).evs = s.evs ++ [.text s.page yAt t] := rfl

theorem dropY_y (s : St) (d : Int) : (dropY s d).y = s.y - d := rfl

theorem dropY_evs (s : St) (d : Int) : (dropY s d).evs = s.evs := rfl

theorem dropY_lows (s : St) (d : Int) : (dropY s d).lows = s.lows := rfl

theorem dropY_dropped (s : St) (d : Int) : (dropY s d).dropped = s.dropped := rfl

theorem evOK_text_of_le (p : Nat) (y : Int) (t : Tag) (h : 50 ≤ y) :
    evOK (.text p y t) = true := by
  simp [evOK, h]

theorem summaryBreak_y_ge (s : St) : 150 ≤ (summaryBreak s).y := by
  unfold summaryBreak
  split
  · show (150:Int) ≤ 742
    decide
  · omega

theorem summaryBreak_lows (s : St) : (summaryBreak s).lows = s.lows := by
  unfold summaryBreak
  split <;> rfl

theorem summaryBreak_dropped (s : St) : (summaryBreak s).dropped = s.dropped := by
  unfold summaryBreak
  split <;> rfl

theorem summaryBreak_evs (s : St) :
    ∀ e ∈ (summaryBreak s).evs, e ∈ s.evs ∨ evOK e = true := by
  intro e he
  unfold summaryBreak at he
  split at he
  · rcases List.mem_append.mp he with h1 | h1
    · exact Or.inl h1
    · right
      rw [List.mem_singleton.mp h1]
      rfl
  · exact Or.inl he

theorem poBreak_y_ge (s : St) : 150 ≤ (poBreak s).y := by
  unfold poBreak
  split
  · show (150:Int) ≤ 742 - 80
    decide
  · omega

theorem poBreak_lows (s : St) : (poBreak s).lows = s.lows := by
  unfold poBreak
  split <;> rfl

theorem poBreak_dropped (s : St) : (poBreak s).dropped = s.dropped := by
  unfold poBreak
  split <;> rfl

theorem poBreak_evs (s : St) :
    ∀ e ∈ (poBreak s).evs, e ∈ s.evs ∨ evOK e = true := by
  intro e he
  unfold poBreak at he
  split at he
  · rcases List.mem_append.mp he with h1 | h1
    · exact Or.inl h1
    · right
      rcases List.mem_cons.mp h1 with h2 | h2
      · rw [h2]; rfl
      · rcases List.mem_cons.mp h2 with h3 | h3
        · rw [h3]; rfl
        · rw [List.mem_singleton.mp h3]; rfl
  · exact Or.inl he

theorem docBreak_y_ge (s : St) : 200 ≤ (docBreak s).y := by
  unfold docBreak
  split
  · show (200:Int) ≤ 742 - 80
    decide
  · omega

theorem docBreak_lows (s : St) : (docBreak s).lows = s.lows := by
  unfold docBreak
  split <;> rfl

theorem docBreak_dropped (s : St) : (docBreak s).dropped = s.dropped := by
  unfold docBreak
  split <;> rfl

theorem docBreak_evs (s : St) :
    ∀ e ∈ (docBreak s).evs, e ∈ s.evs ∨ evOK e = true := by
  intro e he
  unfold docBreak at he
  split at he
  · rcases List.mem_append.mp he with h1 | h1
    · exact Or.inl h1
    · right
      rcases List.mem_cons.mp h1 with h2 | h2
      · rw [h2]; rfl
      · rcases List.mem_cons.mp h2 with h3 | h3
        · rw [h3]; rfl
        · rw [List.mem_singleton.mp h3]; rfl
  · exact Or.inl he

theorem totalsBreak_y_ge (s : St) : 150 ≤ (totalsBreak s).y := by
  unfold totalsBreak
  split
  · show (150:Int) ≤ 792 - 100
    decide
  · omega

theorem totalsBreak_lows (s : St) : (totalsBreak s).lows = s.lows := by
  unfold totalsBreak
  split <;> rfl

theorem totalsBreak_dropped (s : St) : (totalsBreak s).dropped = s.dropped := by
  unfold totalsBreak
  split <;> rfl

theorem totalsBreak_evs (s : St) :
    ∀ e ∈ (totalsBreak s).evs, e ∈ s.evs ∨ evOK e = true := by
  intro e he
  unfold totalsBreak at he
  split at he
  · rcases List.mem_append.mp he with h1 | h1
    · exact Or.inl h1
    · right
      rw [List.mem_singleton.mp h1]
      rfl
  · exact Or.inl he

theorem sumLine_y (s : St) : 150 ≤ (sumLine s).y := summaryBreak_y_ge _

theorem sumLine_lows (s : St) : (sumLine s).lows = s.lows := by
  rw [sumLine, summaryBreak_lows, dropY_lows, emit_lows]

theorem sumLine_dropped (s : St) : (sumLine s).dropped = s.dropped := by
  rw [sumLine, summaryBreak_dropped, dropY_dropped, emit_dropped]

theorem sumLine_evs (s : St) (h : 50 ≤ s.y) :
    ∀ e ∈ (sumLine s).evs, e ∈ s.evs ∨ evOK e = true := by
  intro e he
  rcases summaryBreak_evs _ e he with h1 | h1
  · rw [dropY_evs, emit_evs] at h1
    rcases List.mem_append.mp h1 with h2 | h2
    · exact Or.inl h2
    · right
      rw [List.mem_singleton.mp h2]
      exact evOK_text_of_le _ _ _ h
  · exact Or.inr h1

theorem poLine_y (s : St) : 150 ≤ (poLine s).y := summaryBreak_y_ge _

theorem poLine_lows (s : St) : (poLine s).lows = s.lows := by
  rw [poLine, summaryBreak_lows, dropY_lows, emit_lows]

theorem poLine_dropped (s : St) : (poLine s).dropped = s.dropped := by
  rw [poLine, summaryBreak_dropped, dropY_dropped, emit_dropped]

theorem poLine_evs (s : St) (h : 50 ≤ s.y) :
    ∀ e ∈ (poLine s).evs, e ∈ s.evs ∨ evOK e = true := by
  intro e he
  rcases summaryBreak_evs _ e he with h1 | h1
  · rw [dropY_evs, emit_evs] at h1
    rcases List.mem_append.mp h1 with h2 | h2
    · exact Or.inl h2
    · right
      rw [List.mem_singleton.mp h2]
      exact evOK_text_of_le _ _ _ h
  · exact Or.inr h1

theorem sumLine_foldl {α : Type} (l : List α) (s : St) (h : 50 ≤ s.y) :
    (∀ e ∈ (l.foldl (fun a _ => sumLine a) s).evs, e ∈ s.evs ∨ evOK e = true) ∧
    (150 ≤ (l.foldl (fun a _ => sumLine a) s).y ∨
      (l.foldl (fun a _ => sumLine a) s).y = s.y) ∧
    (l.foldl (fun a _ => sumLine a) s).lows = s.lows ∧
    (l.foldl (fun a _ => sumLine a) s).dropped = s.dropped := by
  induction l generalizing s with
  | nil => exact ⟨fun e he => Or.inl he, Or.inr rfl, rfl, rfl⟩
  | cons x rest ih =>
    simp only [List.foldl_cons]
    obtain ⟨ihe, ihy, ihl, ihd⟩ := ih (sumLine s) (le_trans (by norm_num) (sumLine_y s))
    refine ⟨?_, ?_, ?_, ?_⟩
    · intro e he
      rcases ihe e he with h1 | h1
      · exact sumLine_evs s h e h1
      · exact Or.inr h1
    · rcases ihy with h1 | h1
      · exact Or.inl h1
      · rw [h1]
        exact Or.inl (sumLine_y s)
    · rw [ihl, sumLine_lows]
    · rw [ihd, sumLine_dropped]

theorem poLine_foldl {α : Type} (l : List α) (s : St) (h : 50 ≤ s.y) :
    (∀ e ∈ (l.foldl (fun a _ => poLine a) s).evs, e ∈ s.evs ∨ evOK e = true) ∧
    (150 ≤ (l.foldl (fun a _ => poLine a) s).y ∨
      (l.foldl (fun a _ => poLine a) s).y = s.y) ∧
    (l.foldl (fun a _ => poLine a) s).lows = s.lows ∧
    (l.foldl (fun a _ => poLine a) s).dropped = s.dropped := by
  induction l generalizing s with
  | nil => exact ⟨fun e he => Or.inl he, Or.inr rfl, rfl, rfl⟩
  | cons x rest ih =>
    simp only [List.foldl_cons]
    obtain ⟨ihe, ihy, ihl, ihd⟩ := ih (poLine s) (le_trans (by norm_num) (poLine_y s))
    refine ⟨?_, ?_, ?_, ?_⟩
    · intro e he
      rcases ihe e he with h1 | h1
      · exact poLine_evs s h e h1
      · exact Or.inr h1
    · rcases ihy with h1 | h1
      · exact Or.inl h1
      · rw [h1]
        exact Or.inl (poLine_y s)
    · rw [ihl, poLine_lows]
    · rw [ihd, poLine_dropped]

theorem rowDraw_facts (s : St) (it : Item) :
    (rowDraw s it).page = s.page ∧ (rowDraw s it).lows = s.lows ∧
      (rowDraw s it).dropped = s.dropped ∧ (rowDraw s it).y ≤ s.y ∧
      ∀ e ∈ (rowDraw s it).evs, e ∈ s.evs ∨
        ∃ y t, e = Ev.text s.page y t ∧ (rowDraw s it).y ≤ y := by
  have hy : (rowDraw s it).y = s.y - 12 * (wrap_text it.description 35).length := rfl
  refine ⟨rfl, rfl, rfl, by rw [hy]; omega, ?_⟩
  intro e he
  have hevs : (rowDraw s it).evs = s.evs ++ (Ev.text s.page s.y .rowMain ::
      (List.range (wrap_text it.description 35).length).map
        (fun i : Nat => Ev.text s.page (s.y - 12 * (i : Int)) .rowDesc)) := rfl
  rw [hevs] at he
  rcases List.mem_append.mp he with h1 | h1
  · exact Or.inl h1
  · right
    rcases List.mem_cons.mp h1 with h2 | h2
    · exact ⟨s.y, .rowMain, h2, by rw [hy]; omega⟩
    · obtain ⟨i, hi, he2⟩ := List.mem_map.mp h2
      have hi2 : i < (wrap_text it.description 35).length := List.mem_range.mp hi
      exact ⟨s.y - 12 * (i : Int), .rowDesc, he2.symm, by rw [hy]; omega⟩

theorem rowLoop_facts (its : List Item) (s : St) :
    (rowLoop s its).page = s.page ∧
    (rowLoop s its).lows = s.lows ∧
    (rowLoop s its).y ≤ s.y ∧
    s.dropped ≤ (rowLoop s its).dropped ∧
    (∀ e ∈ (rowLoop s its).evs, e ∈ s.evs ∨
        ∃ y t, e = Ev.text s.page y t ∧ (rowLoop s its).y ≤ y) ∧
    (100 ≤ (rowLoop s its).y → (rowLoop s its).dropped = s.dropped) := by
  induction its generalizing s with
  | nil =>
    exact ⟨rfl, rfl, le_refl _, le_refl _, fun e he => Or.inl he, fun _ => rfl⟩
  | cons it rest ih =>
    obtain ⟨rdp, rdl, rdd, rdy, rde⟩ := rowDraw_facts s it
    show _ ∧ _ ∧ _ ∧ _ ∧ _ ∧ _
    rw [rowLoop]
    split
    · next hbreak =>
      refine ⟨rdp, rdl, rdy, ?_, ?_, ?_⟩
      · show s.dropped ≤ (rowDraw s it).dropped + rest.length
        omega
      · intro e he
        rcases rde e he with h1 | h1
        · exact Or.inl h1
        · obtain ⟨y, t, he2, hy2⟩ := h1
          exact Or.inr ⟨y, t, he2, hy2⟩
      · intro hcon
        exact absurd (show (100:Int) ≤ (rowDraw s it).y from hcon) (by omega)
    · next hcont =>
      obtain ⟨ihp, ihl, ihy, ihd, ihe, ihdrop⟩ := ih (rowDraw s it)
      refine ⟨by rw [ihp, rdp], by rw [ihl, rdl], le_trans ihy rdy,
        by rw [← rdd]; exact ihd, ?_, ?_⟩
      · intro e he
        rcases ihe e he with h1 | h1
        · rcases rde e h1 with h2 | h2
          · exact Or.inl h2
          · obtain ⟨y, t, he2, hy2⟩ := h2
            exact Or.inr ⟨y, t, he2, le_trans ihy hy2⟩
        · obtain ⟨y, t, he2, hy2⟩ := h1
          exact Or.inr ⟨y, t, by rw [he2, rdp], hy2⟩
      · intro hge
        rw [ihdrop hge, rdd]

theorem docHead_facts (s : St) :
    167 ≤ (docHead s).y ∧ (docHead s).lows = s.lows ∧
      (docHead s).dropped = s.dropped ∧
      (∀ e ∈ (docHead s).evs, e ∈ s.evs ∨ evOK e = true) := by
  have h1 := docBreak_y_ge s
  have hy : (docHead s).y = (docBreak s).y - 21 - 12 := rfl
  have hevs : (docHead s).evs = (docBreak s).evs ++
      [Ev.text (docBreak s).page (docBreak s).y .docLabel] ++
      [Ev.text (docBreak s).page ((docBreak s).y - 21) .tableHeader] := rfl
  refine ⟨by omega, ?_, ?_, ?_⟩
  · show (docBreak s).lows = s.lows
    exact docBreak_lows s
  · show (docBreak s).dropped = s.dropped
    exact docBreak_dropped s
  · intro e he
    rw [hevs] at he
    rcases List.mem_append.mp he with h2 | h2
    · rcases List.mem_append.mp h2 with h3 | h3
      · exact docBreak_evs s e h3
      · right
        rw [List.mem_singleton.mp h3]
        exact evOK_text_of_le _ _ _ (by omega)
    · right
      rw [List.mem_singleton.mp h2]
      exact evOK_text_of_le _ _ _ (by omega)

theorem docTail_facts (s : St) :
    (docTail s).lows = s.lows ++ [s.y] ∧ (docTail s).dropped = s.dropped ∧
      (docTail s).y = s.y - 5 - 15 - 25 ∧
      (100 ≤ s.y → ∀ e ∈ (docTail s).evs, e ∈ s.evs ∨ evOK e = true) := by
  have hevs : (docTail s).evs = s.evs ++
      [Ev.text s.page (s.y - 5) .docMeta] ++
      [Ev.text s.page (s.y - 5 - 15) .docSubtotal] ++
      [Ev.rect s.page (s.y - 5 - 15 - 25 - 10)] := rfl
  refine ⟨rfl, rfl, rfl, ?_⟩
  intro hge e he
  rw [hevs] at he
  rcases List.mem_append.mp he with h2 | h2
  · rcases List.mem_append.mp h2 with h3 | h3
    · rcases List.mem_append.mp h3 with h4 | h4
      · exact Or.inl h4
      · right
        rw [List.mem_singleton.mp h4]
        exact evOK_text_of_le _ _ _ (by omega)
    · right
      rw [List.mem_singleton.mp h3]
      exact evOK_text_of_le _ _ _ (by omega)
  · right
    rw [List.mem_singleton.mp h2]
    show decide ((45:Int) ≤ s.y - 5 - 15 - 25 - 10) = true
    simp only [decide_eq_true_eq]
    omega

theorem renderDoc_facts (s : St) (its : List Item) :
    ∃ f, (renderDoc s its).lows = s.lows ++ [f] ∧
      s.dropped ≤ (renderDoc s its).dropped ∧
      (100 ≤ f → (renderDoc s its).dropped = s.dropped ∧
        55 ≤ (renderDoc s its).y ∧
        (∀ e ∈ (renderDoc s its).evs, e ∈ s.evs ∨ evOK e = true)) := by
  obtain ⟨dh_y, dh_lows, dh_dropped, dh_evs⟩ := docHead_facts s
  obtain ⟨rlp, rll, rly, rld, rle, rldrop⟩ := rowLoop_facts its (docHead s)
  obtain ⟨dt_lows, dt_dropped, dt_y, dt_evs⟩ := docTail_facts (rowLoop (docHead s) its)
  refine ⟨(rowLoop (docHead s) its).y, ?_, ?_, ?_⟩
  · show (docTail (rowLoop (docHead s) its)).lows = s.lows ++ [(rowLoop (docHead s) its).y]
    rw [dt_lows, rll, dh_lows]
  · show s.dropped ≤ (docTail (rowLoop (docHead s) its)).dropped
    rw [dt_dropped, ← dh_dropped]
    exact rld
  · intro hf
    refine ⟨?_, ?_, ?_⟩
    · show (docTail (rowLoop (docHead s) its)).dropped = s.dropped
      rw [dt_dropped, rldrop hf, dh_dropped]
    · show 55 ≤ (docTail (rowLoop (docHead s) its)).y
      rw [dt_y]
      omega
    · intro e he
      rcases dt_evs hf e he with h1 | h1
      · rcases rle e h1 with h2 | h2
        · exact dh_evs e h2
        · obtain ⟨y, t, he2, hy2⟩ := h2
          right
          rw [he2]
          exact evOK_text_of_le _ _ _ (by omega)
      · exact Or.inr h1

theorem docsFold_facts (docs : Docs) (s : St) :
    ∃ add, (docs.foldl (fun a d => renderDoc a d.2) s).lows = s.lows ++ add ∧
      s.dropped ≤ (docs.foldl (fun a d => renderDoc a d.2) s).dropped ∧
      ((∀ v ∈ (docs.foldl (fun a d => renderDoc a d.2) s).lows, (100:Int) ≤ v) →
        (docs.foldl (fun a d => renderDoc a d.2) s).dropped = s.dropped ∧
        (55 ≤ (docs.foldl (fun a d => renderDoc a d.2) s).y ∨
          (docs.foldl (fun a d => renderDoc a d.2) s).y = s.y) ∧
        (∀ e ∈ (docs.foldl (fun a d => renderDoc a d.2) s).evs,
          e ∈ s.evs ∨ evOK e = true)) := by
  induction docs generalizing s with
  | nil => exact ⟨[], by simp, le_refl _, fun _ => ⟨rfl, Or.inr rfl, fun e he => Or.inl he⟩⟩
  | cons d rest ih =>
    simp only [List.foldl_cons]
    obtain ⟨f, rd_lows, rd_mono, rd_cond⟩ := renderDoc_facts s d.2
    obtain ⟨add, ih_lows, ih_mono, ih_cond⟩ := ih (renderDoc s d.2)
    refine ⟨[f] ++ add, ?_, le_trans rd_mono ih_mono, ?_⟩
    · rw [ih_lows, rd_lows, List.append_assoc]
    · intro h
      have hf : (100:Int) ≤ f := by
        apply h
        rw [ih_lows, rd_lows]
        exact List.mem_append_left _ (List.mem_append_right _ (List.mem_singleton_self f))
      obtain ⟨rd_drop, rd_y, rd_evs⟩ := rd_cond hf
      obtain ⟨ih_drop, ih_y, ih_evs⟩ := ih_cond h
      refine ⟨by rw [ih_drop, rd_drop], ?_, ?_⟩
      · rcases ih_y with h1 | h1
        · exact Or.inl h1
        · rw [h1]
          exact Or.inl rd_y
      · intro e he
        rcases ih_evs e he with h1 | h1
        · exact rd_evs e h1
        · exact Or.inr h1

theorem poHead_facts (s : St) (docs : Docs) :
    121 ≤ (poHead s docs).y ∧ (poHead s docs).lows = s.lows ∧
      (poHead s docs).dropped = s.dropped ∧
      (∀ e ∈ (poHead s docs).evs, e ∈ s.evs ∨ evOK e = true) := by
  have h1 := poBreak_y_ge s
  have h2y : (dropY (emit (poBreak s) .poSummaryTitle (poBreak s).y) 19).y
      = (poBreak s).y - 19 := rfl
  obtain ⟨fe, fy, fl, fd⟩ := poLine_foldl (po_service docs)
    (dropY (emit (poBreak s) .poSummaryTitle (poBreak s).y) 19) (by rw [h2y]; omega)
  have hyh : (poHead s docs).y =
      ((po_service docs).foldl (fun a _ => poLine a)
        (dropY (emit (poBreak s) .poSummaryTitle (poBreak s).y) 19)).y - 10 := rfl
  refine ⟨?_, ?_, ?_, ?_⟩
  · rw [hyh]
    rcases fy with hy1 | hy1
    · omega
    · rw [hy1, h2y]
      omega
  · show ((po_service docs).foldl (fun a _ => poLine a)
      (dropY (emit (poBreak s) .poSummaryTitle (poBreak s).y) 19)).lows = s.lows
    rw [fl, dropY_lows, emit_lows, poBreak_lows]
  · show ((po_service docs).foldl (fun a _ => poLine a)
      (dropY (emit (poBreak s) .poSummaryTitle (poBreak s).y) 19)).dropped = s.dropped
    rw [fd, dropY_dropped, emit_dropped, poBreak_dropped]
  · intro e he
    have he2 : e ∈ ((po_service docs).foldl (fun a _ => poLine a)
        (dropY (emit (poBreak s) .poSummaryTitle (poBreak s).y) 19)).evs := he
    rcases fe e he2 with h2 | h2
    · rw [dropY_evs, emit_evs] at h2
      rcases List.mem_append.mp h2 with h3 | h3
      · exact poBreak_evs s e h3
      · right
        rw [List.mem_singleton.mp h3]
        exact evOK_text_of_le _ _ _ (by omega)
    · exact Or.inr h2

theorem renderPo_facts (s : St) (docs : Docs) :
    ∃ add, (renderPo s docs).lows = s.lows ++ add ∧
      s.dropped ≤ (renderPo s docs).dropped ∧
      ((∀ v ∈ (renderPo s docs).lows, (100:Int) ≤ v) →
        (renderPo s docs).dropped = s.dropped ∧ 15 ≤ (renderPo s docs).y ∧
        (∀ e ∈ (renderPo s docs).evs, e ∈ s.evs ∨ evOK e = true)) := by
  obtain ⟨ph_y, ph_lows, ph_dropped, ph_evs⟩ := poHead_facts s docs
  obtain ⟨add, df_lows, df_mono, df_cond⟩ := docsFold_facts docs (poHead s docs)
  have hpt_lows : (renderPo s docs).lows =
      (docs.foldl (fun a d => renderDoc a d.2) (poHead s docs)).lows := rfl
  have hpt_dropped : (renderPo s docs).dropped =
      (docs.foldl (fun a d => renderDoc a d.2) (poHead s docs)).dropped := rfl
  have hpt_y : (renderPo s docs).y =
      (docs.foldl (fun a d => renderDoc a d.2) (poHead s docs)).y - 40 := rfl
  have hpt_evs : (renderPo s docs).evs =
      (docs.foldl (fun a d => renderDoc a d.2) (poHead s docs)).evs ++
        [Ev.text (docs.foldl (fun a d => renderDoc a d.2) (poHead s docs)).page
          (docs.foldl (fun a d => renderDoc a d.2) (poHead s docs)).y .poTotal] := rfl
  refine ⟨add, ?_, ?_, ?_⟩
  · rw [hpt_lows, df_lows, ph_lows]
  · rw [hpt_dropped, ← ph_dropped]
    exact df_mono
  · intro h
    have hF : ∀ v ∈ (docs.foldl (fun a d => renderDoc a d.2) (poHead s docs)).lows,
        (100:Int) ≤ v := by
      intro v hv
      apply h
      rw [hpt_lows]
      exact hv
    obtain ⟨df_drop, df_y, df_evs⟩ := df_cond hF
    have hFy : 55 ≤ (docs.foldl (fun a d => renderDoc a d.2) (poHead s docs)).y := by
      rcases df_y with h1 | h1
      · exact h1
      · rw [h1]
        omega
    refine ⟨by rw [hpt_dropped, df_drop, ph_dropped], by rw [hpt_y]; omega, ?_⟩
    · intro e he
      rw [hpt_evs] at he
      rcases List.mem_append.mp he with h1 | h1
      · rcases df_evs e h1 with h2 | h2
        · exact ph_evs e h2
        · exact Or.inr h2
      · right
        rw [List.mem_singleton.mp h1]
        exact evOK_text_of_le _ _ _ (by omega)

theorem poFold_facts (gs : Groups) (s : St) :
    ∃ add, (gs.foldl (fun a g => renderPo a g.2) s).lows = s.lows ++ add ∧
      s.dropped ≤ (gs.foldl (fun a g => renderPo a g.2) s).dropped ∧
      ((∀ v ∈ (gs.foldl (fun a g => renderPo a g.2) s).lows, (100:Int) ≤ v) →
        (gs.foldl (fun a g => renderPo a g.2) s).dropped = s.dropped ∧
        (∀ e ∈ (gs.foldl (fun a g => renderPo a g.2) s).evs,
          e ∈ s.evs ∨ evOK e = true)) := by
  induction gs generalizing s with
  | nil => exact ⟨[], by simp, le_refl _, fun _ => ⟨rfl, fun e he => Or.inl he⟩⟩
  | cons g rest ih =>
    simp only [List.foldl_cons]
    obtain ⟨add1, rp_lows, rp_mono, rp_cond⟩ := renderPo_facts s g.2
    obtain ⟨add, ih_lows, ih_mono, ih_cond⟩ := ih (renderPo s g.2)
    refine ⟨add1 ++ add, ?_, le_trans rp_mono ih_mono, ?_⟩
    · rw [ih_lows, rp_lows, List.append_assoc]
    · intro h
      have h1 : ∀ v ∈ (renderPo s g.2).lows, (100:Int) ≤ v := by
        intro v hv
        apply h
        rw [ih_lows]
        exact List.mem_append_left _ hv
      obtain ⟨rp_drop, _, rp_evs⟩ := rp_cond h1
      obtain ⟨ih_drop, ih_evs⟩ := ih_cond h
      refine ⟨by rw [ih_drop, rp_drop], ?_⟩
      intro e he
      rcases ih_evs e he with h2 | h2
      · exact rp_evs e h2
      · exact Or.inr h2

theorem renderTotals_facts (s : St) :
    (renderTotals s).lows = s.lows ∧ (renderTotals s).dropped = s.dropped ∧
      ∀ e ∈ (renderTotals s).evs, e ∈ s.evs ∨ evOK e = true := by
  have h1 := totalsBreak_y_ge s
  have hevs : (renderTotals s).evs = (totalsBreak s).evs ++
      [Ev.text (totalsBreak s).page (totalsBreak s).y .totalsLine] ++
      [Ev.text (totalsBreak s).page ((totalsBreak s).y - 15) .totalsLine] ++
      [Ev.text (totalsBreak s).page ((totalsBreak s).y - 35) .totalsLine] ++
      [Ev.text (totalsBreak s).page 50 .footer] := rfl
  refine ⟨?_, ?_, ?_⟩
  · show (totalsBreak s).lows = s.lows
    exact totalsBreak_lows s
  · show (totalsBreak s).dropped = s.dropped
    exact totalsBreak_dropped s
  · intro e he
    rw [hevs] at he
    rcases List.mem_append.mp he with h2 | h2
    · rcases List.mem_append.mp h2 with h3 | h3
      · rcases List.mem_append.mp h3 with h4 | h4
        · rcases List.mem_append.mp h4 with h5 | h5
          · exact totalsBreak_evs s e h5
          · right
            rw [List.mem_singleton.mp h5]
            exact evOK_text_of_le _ _ _ (by omega)
        · right
          rw [List.mem_singleton.mp h4]
          exact evOK_text_of_le _ _ _ (by omega)
      · right
        rw [List.mem_singleton.mp h3]
        exact evOK_text_of_le _ _ _ (by omega)
    · right
      rw [List.mem_singleton.mp h2]
      exact evOK_text_of_le _ _ _ (by omega)

set_option maxRecDepth 40000 in
theorem renderHeader_facts (b : Bool) :
    150 ≤ (renderHeader b).y ∧ (renderHeader b).lows = [] ∧
      (renderHeader b).dropped = 0 ∧ (renderHeader b).evs.all evOK = true := by
  cases b
  · exact ⟨by decide, by decide, by decide, by decide⟩
  · exact ⟨by decide, by decide, by decide, by decide⟩

/-- C8 (amended): the line-item loop never starts a new page, so no page
break ever occurs in the middle of a line-item row (truncation replaces
page breaks there); and whenever no document's line-item loop crosses the
100-point threshold, nothing is truncated and every drawn text sits at or
above the 50-point footer line with every box bottom at or above 45
points — but when a document's wrapped rows do cross the threshold the
cursor and subsequent drawing can fall below the page bottom even with no
row truncated. -/
theorem C8_pagination_no_midrow_break (its : List Item) (s : St)
    (rs : List CleanRow) (logoOk : Bool)
    (h : ∀ v ∈ (render rs logoOk).lows, (100:Int) ≤ v) :
    ((rowLoop s its).page = s.page ∧
      (∀ e ∈ (rowLoop s its).evs, e ∈ s.evs ∨ ∀ p, e ≠ Ev.newPage p)) ∧
    ((render rs logoOk).dropped = 0 ∧
      ∀ e ∈ (render rs logoOk).evs, evOK e = true) := by
  obtain ⟨rlp, _, _, _, rle, _⟩ := rowLoop_facts its s
  constructor
  · refine ⟨rlp, ?_⟩
    intro e he
    rcases rle e he with h1 | h1
    · exact Or.inl h1
    · obtain ⟨y, t, he2, _⟩ := h1
      right
      intro p
      rw [he2]
      exact fun hh => Ev.noConfusion hh
  · obtain ⟨hh_y, hh_lows, hh_dropped, hh_evs⟩ := renderHeader_facts logoOk
    obtain ⟨sf_evs, sf_y, sf_lows, sf_dropped⟩ :=
      sumLine_foldl (global_service rs) (renderHeader logoOk) (by omega)
    obtain ⟨add, pf_lows, pf_mono, pf_cond⟩ :=
      poFold_facts (po_groups rs)
        (dropY ((global_service rs).foldl (fun a _ => sumLine a) (renderHeader logoOk)) 20)
    obtain ⟨rt_lows, rt_dropped, rt_evs⟩ :=
      renderTotals_facts ((po_groups rs).foldl (fun a g => renderPo a g.2)
        (dropY ((global_service rs).foldl (fun a _ => sumLine a) (renderHeader logoOk)) 20))
    have hrender : render rs logoOk =
        renderTotals ((po_groups rs).foldl (fun a g => renderPo a g.2)
          (dropY ((global_service rs).foldl (fun a _ => sumLine a)
            (renderHeader logoOk)) 20)) := rfl
    have h3 : ∀ v ∈ ((po_groups rs).foldl (fun a g => renderPo a g.2)
        (dropY ((global_service rs).foldl (fun a _ => sumLine a)
          (renderHeader logoOk)) 20)).lows, (100:Int) ≤ v := by
      intro v hv
      apply h
      rw [hrender, rt_lows]
      exact hv
    obtain ⟨pf_drop, pf_evs⟩ := pf_cond h3
    constructor
    · rw [hrender, rt_dropped, pf_drop, dropY_dropped, sf_dropped, hh_dropped]
    · intro e he
      rw [hrender] at he
      rcases rt_evs e he with h1 | h1
      · rcases pf_evs e h1 with h2 | h2
        · rw [dropY_evs] at h2
          rcases sf_evs e h2 with h4 | h4
          · exact (List.all_eq_true.mp hh_evs) e h4
          · exact h4
        · exact h2
      · exact h1

set_option maxRecDepth 400000 in
/-- C8 counterexample: on a document whose last line item wraps to 25
sub-lines, no row is truncated (dropped = 0) yet text is drawn at negative
vertical positions — below any bottom margin — refuting the claim that the
cursor stays at or above the bottom margin except when trailing rows are
truncated. -/
theorem C8_counterexample :
    (render rsC8 false).dropped = 0 ∧
      (render rsC8 false).evs.any (fun e => match e with
        | Ev.text _ y _ => y < 0
        | _ => false) = true := by
  decide

set_option maxRecDepth 400000 in
/-- C8 witness: the amended theorem applied to the two-document totals
fixture, whose line-item loops stay above 100 points. -/
theorem C8_witness :
    (render rsC3 false).dropped = 0 ∧ (render rsC3 false).evs.all evOK = true := by
  obtain ⟨hd, he⟩ :=
    (C8_pagination_no_midrow_break [] ⟨1, 742, [], [], 0⟩ rsC3 false (by decide)).2
  exact ⟨hd, List.all_eq_true.mpr he⟩
